import Mathlib

/-!
Verification development for the BSMedia plugin (`bsm.py`): a shallow
embedding of its PPM (P6) decoder (`calc`), its background video-load
aggregation (`Video._process_frame` / `Video._on_frame_processed`), its
ready-callback registration (`set_on_data_ready_callback`), and its
timer-driven playback scheduler (`Screen._start_video_playback`,
`Screen._stop_video_playback`, `Screen._play_next_video_frame`,
`Screen.load`), together with theorems about the specified properties.

Modelling conventions: file contents are byte lists (`List Nat`), Python
float arithmetic is modelled exactly over `ℚ`, the host activity context
is modelled as valid, and the main-thread message queue is modelled by
folding completion messages over the job state.
-/

namespace BSM

/-- An (r, g, b) color value as produced by `calc` (Python float triples,
modelled over `ℚ`). -/
abbrev Triple := ℚ × ℚ × ℚ

/-- The pixel array produced by `calc`: `pa = [None] * (tw * th)` whose
cells are filled (or left `None`) by the resampling loop. -/
abbrev FrameBuffer := List (Option Triple)

/-- The bytes Python's `bytes.strip()` / `bytes.split()` treat as
whitespace: space, tab, newline, carriage return, vertical tab, form feed. -/
def isSpace (b : Nat) : Bool :=
  b = 32 || b = 9 || b = 10 || b = 13 || b = 11 || b = 12

/-- `f.readline()` on a byte stream: the bytes before the first newline
(byte 10) paired with the bytes after it (the newline itself is dropped;
it would be stripped anyway). At end of stream both parts are empty. -/
def splitAtNewline : List Nat → List Nat × List Nat
  | [] => ([], [])
  | b :: rest =>
    if b = 10 then ([], rest)
    else
      let pr := splitAtNewline rest
      (b :: pr.1, pr.2)

/-- `bytes.strip()`: drop whitespace bytes from both ends. -/
def stripBytes (l : List Nat) : List Nat :=
  ((l.dropWhile isSpace).reverse.dropWhile isSpace).reverse

/-- Accumulator loop for `bytes.split()`. -/
def splitWsAux : List Nat → List Nat → List (List Nat)
  | [], cur => if cur.isEmpty then [] else [cur.reverse]
  | b :: rest, cur =>
    if isSpace b then
      if cur.isEmpty then splitWsAux rest [] else cur.reverse :: splitWsAux rest []
    else splitWsAux rest (b :: cur)

/-- `bytes.split()` with no separator: split on runs of whitespace,
discarding empty tokens. -/
def splitWs (l : List Nat) : List (List Nat) := splitWsAux l []

/-- Is `b` an ASCII digit byte. -/
def isDigit (b : Nat) : Bool := 48 ≤ b && b ≤ 57

/-- Value of a nonempty all-digit byte string. -/
def digitsVal (ds : List Nat) : Option Nat :=
  if ds.isEmpty then none
  else if ds.all isDigit then some (ds.foldl (fun a b => a * 10 + (b - 48)) 0)
  else none

/-- `int(token.decode('ascii'))` on a whitespace-free token: an optional
sign followed by digits (digit-group underscores accepted by Python's
`int` are not modelled). A failed parse is a `ValueError` /
`UnicodeDecodeError`, both of which make `calc` return `None`. -/
def parseInt (tok : List Nat) : Option Int :=
  match tok with
  | 43 :: rest => (digitsVal rest).map Int.ofNat
  | 45 :: rest => (digitsVal rest).map (fun n => -(Int.ofNat n : Int))
  | _ => (digitsVal tok).map Int.ofNat

/-- One non-exiting iteration of the header `while` loop of `calc`,
applied to an already stripped line: `none` models the
`Bad header.` / `Bad dims/max.` / `Bad max val.` error returns, and
`some` carries the updated `(ow, oh, mv)` state. -/
def headerLineStep (line : List Nat) (ow oh : Int) (mv : Option Int) :
    Option (Int × Int × Option Int) :=
  if line.isEmpty || decide (line.length > 100) then none
  else if line.head? = some 35 then some (ow, oh, mv)
  else
    let parts := splitWs line
    if ow = 0 ∧ 2 ≤ parts.length then
      match parseInt (parts.getD 0 []), parseInt (parts.getD 1 []) with
      | some w, some h =>
        if 3 ≤ parts.length then
          match parseInt (parts.getD 2 []) with
          | some m => some (w, h, some m)
          | none => none
        else some (w, h, mv)
      | _, _ => none
    else if mv.isNone ∧ 1 ≤ parts.length then
      match parseInt (parts.getD 0 []) with
      | some m => some (ow, oh, some m)
      | none => none
    else some (ow, oh, mv)

/-- The `while ow == 0 or oh == 0 or mv is None` header loop of `calc`.
Each iteration consumes at least one byte of the stream, so
`data.length + 1` fuel always suffices; `none` is an error return. On
success it yields the parsed `(ow, oh, mv)` and the unread remainder of
the stream. -/
def parseHeaderLoop : Nat → List Nat → Int → Int → Option Int →
    Option (Int × Int × Int × List Nat)
  | 0, _, _, _, _ => none
  | fuel + 1, data, ow, oh, mv =>
    if ow ≠ 0 ∧ oh ≠ 0 ∧ mv ≠ none then some (ow, oh, mv.getD 0, data)
    else
      let pr := splitAtNewline data
      match headerLineStep (stripBytes pr.1) ow oh mv with
      | none => none
      | some st => parseHeaderLoop fuel pr.2 st.1 st.2.1 st.2.2

/-- Magic-token check plus header loop of `calc`: `none` models the
`Bad magic` and header error returns; `some (ow, oh, mv, rest)` gives the
parsed header and the unread remainder of the file. -/
def headerOf (bytes : List Nat) : Option (Int × Int × Int × List Nat) :=
  let pr := splitAtNewline bytes
  if stripBytes pr.1 = [80, 54] then
    parseHeaderLoop (pr.2.length + 1) pr.2 0 0 none
  else none

/-- One resampled, normalized sample of the source image for target pixel
`(tx, ty)`: nearest-neighbor column, vertically flipped row, channels
divided by the max value (0.0 when `mv ≤ 0`). `floor(tx * (ow/tw))` is
modelled exactly as `tx * ow / tw` over naturals, and `r_b / mv` is
spelled `mkRat r_b mv.toNat` (equal to `(r_b : ℚ) / mv` for `0 < mv`, see
`mkRat_toNat_eq_div`) so that it reduces under `decide`. -/
def samplePixel (r : List Nat) (ow oh tw th : Nat) (mv : Int) (tx ty : Nat) : Triple :=
  let ox := min (ow - 1) (tx * ow / tw)
  let oyRaw := ty * oh / th
  let oy := min (oh - 1) (oh - 1 - oyRaw)
  let pixIdx := (oy * ow + ox) * 3
  let norm : Nat → ℚ := fun b => if 0 < mv then mkRat b mv.toNat else 0
  (norm (r.getD pixIdx 0), norm (r.getD (pixIdx + 1) 0), norm (r.getD (pixIdx + 2) 0))

/-- The `pa[arr_idx] = ...` filling loop of `calc` over the listed
`(ty, tx)` pairs. Python raises `IndexError` when `arr_idx = ty * th + tx`
is out of range of the preallocated list; that raise is modelled by
`none`. -/
def fillLoop (r : List Nat) (ow oh tw th : Nat) (mv : Int) :
    List (Nat × Nat) → FrameBuffer → Option FrameBuffer
  | [], pa => some pa
  | (ty, tx) :: rest, pa =>
    let arrIdx := ty * th + tx
    if arrIdx < pa.length then
      fillLoop r ow oh tw th mv rest (pa.set arrIdx (some (samplePixel r ow oh tw th mv tx ty)))
    else none

/-- Outcome of `calc`: `err` is a `return None`, `raised` is an uncaught
exception escaping `calc` (the resampling loop is outside its
`try`-block), `ok` carries the returned pixel array. -/
inductive CalcResult where
  | err : CalcResult
  | raised : CalcResult
  | ok : FrameBuffer → CalcResult
deriving Repr, DecidableEq

/-- The double `for` resampling loop of `calc`: outer `ty`, inner `tx`. -/
def runResample (r : List Nat) (ow oh tw th : Nat) (mv : Int) : CalcResult :=
  let pairs := (List.range th).flatMap fun ty => (List.range tw).map fun tx => (ty, tx)
  match fillLoop r ow oh tw th mv pairs (List.replicate (tw * th) none) with
  | some pa => .ok pa
  | none => .raised

/-- Shallow embedding of `calc` from bsm.py over the raw file bytes
(`calc` is a Lean keyword, hence the name). File I/O is modelled by
passing the file's contents; a missing file is simply not modelled (that
path returns `None` like any other read error). -/
def calcPPM (bytes : List Nat) (tRes : Option (Int × Int)) : CalcResult :=
  match headerOf bytes with
  | none => .err
  | some (ow, oh, mv, rest) =>
    if ow ≤ 0 ∨ oh ≤ 0 then .err
    else
      let own := ow.toNat
      let ohn := oh.toNat
      let expSize := own * ohn * 3
      let r := rest.take expSize
      if r.length ≠ expSize then .err
      else
        match tRes with
        | none => runResample r own ohn own ohn mv
        | some (tw, th) =>
          if tw ≤ 0 ∨ th ≤ 0 then .err
          else runResample r own ohn tw.toNat th.toNat mv

section DecoderLemmas

/-- The decide-friendly spelling of normalization agrees with rational
division for a positive max value. -/
lemma mkRat_toNat_eq_div (b : Nat) (mv : Int) (hmv : 0 < mv) :
    mkRat b mv.toNat = (b : ℚ) / (mv : ℚ) := by
  rw [Rat.mkRat_eq_div]
  have h : ((mv.toNat : ℚ)) = (mv : ℚ) := by
    exact_mod_cast congrArg (fun z : ℤ => (z : ℚ)) (Int.toNat_of_nonneg (le_of_lt hmv))
  rw [h]
  norm_cast

/-- Every cell of a successfully filled pixel array is either a cell of
the initial array or a written sample. -/
lemma fillLoop_mem (r : List Nat) (ow oh tw th : Nat) (mv : Int) :
    ∀ (pairs : List (Nat × Nat)) (pa0 pa : FrameBuffer),
      fillLoop r ow oh tw th mv pairs pa0 = some pa →
      ∀ c ∈ pa, c ∈ pa0 ∨ ∃ tx ty, c = some (samplePixel r ow oh tw th mv tx ty) := by
  intro pairs
  induction pairs with
  | nil =>
    intro pa0 pa h c hc
    simp only [fillLoop] at h
    cases h
    exact Or.inl hc
  | cons p rest ih =>
    intro pa0 pa h c hc
    obtain ⟨ty, tx⟩ := p
    simp only [fillLoop] at h
    split at h
    · rcases ih _ _ h c hc with hmem | hw
      · rcases List.mem_or_eq_of_mem_set hmem with h0 | h1
        · exact Or.inl h0
        · exact Or.inr ⟨tx, ty, h1⟩
      · exact Or.inr hw
    · exact absurd h (by simp)

/-- With a non-positive max value every sample normalizes to (0, 0, 0). -/
lemma samplePixel_of_nonpos (r : List Nat) (ow oh tw th : Nat) (mv : Int)
    (hmv : mv ≤ 0) (tx ty : Nat) :
    samplePixel r ow oh tw th mv tx ty = ((0 : ℚ), (0 : ℚ), (0 : ℚ)) := by
  simp only [samplePixel]
  rw [if_neg (by omega), if_neg (by omega), if_neg (by omega)]

end DecoderLemmas

section HeaderLemmas

/-- The unread tail of `splitAtNewline` never grows. -/
lemma splitAtNewline_snd_length_le (d : List Nat) :
    (splitAtNewline d).2.length ≤ d.length := by
  induction d with
  | nil => simp [splitAtNewline]
  | cons b rest ih =>
    simp only [splitAtNewline]
    split
    · simp
    · simpa using Nat.le_succ_of_le ih

/-- Appending to a stream whose first line is newline-terminated only
extends the unread tail. -/
lemma splitAtNewline_append (d e : List Nat) (h : (splitAtNewline d).2 ≠ []) :
    splitAtNewline (d ++ e) = ((splitAtNewline d).1, (splitAtNewline d).2 ++ e) := by
  induction d with
  | nil => simp [splitAtNewline] at h
  | cons b rest ih =>
    by_cases hb : b = 10
    · subst hb; simp [splitAtNewline]
    · have h2 : (splitAtNewline rest).2 ≠ [] := by
        simpa [splitAtNewline, hb] using h
      simp [splitAtNewline, hb, ih h2]

/-- `splitAtNewline` on an explicitly newline-terminated newline-free
line. -/
lemma splitAtNewline_line (l r : List Nat) (h : ∀ b ∈ l, b ≠ 10) :
    splitAtNewline (l ++ 10 :: r) = (l, r) := by
  induction l with
  | nil => simp [splitAtNewline]
  | cons b t ih =>
    have hb : b ≠ 10 := h b (by simp)
    have ht := ih (fun x hx => h x (by simp [hx]))
    simp only [List.cons_append, splitAtNewline, if_neg hb, List.append_eq, ht]

/-- `bytes.strip()` is the identity when neither end byte is whitespace. -/
lemma stripBytes_eq_self (l : List Nat)
    (h1 : ∀ a, l.head? = some a → isSpace a = false)
    (h2 : ∀ a, l.getLast? = some a → isSpace a = false) :
    stripBytes l = l := by
  have front : ∀ (m : List Nat), (∀ a, m.head? = some a → isSpace a = false) →
      m.dropWhile isSpace = m := by
    intro m hm
    cases m with
    | nil => rfl
    | cons a t => simp [List.dropWhile, hm a rfl]
  rw [stripBytes, front _ h1, front, List.reverse_reverse]
  intro a ha
  rw [List.head?_reverse] at ha
  exact h2 a ha

/-- `bytes.strip()` is the identity on a whitespace-free byte string. -/
lemma stripBytes_eq_self_of_all (l : List Nat) (h : ∀ b ∈ l, isSpace b = false) :
    stripBytes l = l := by
  apply stripBytes_eq_self
  · intro a ha
    cases l with
    | nil => simp at ha
    | cons b t =>
      have hba : b = a := by simpa using ha
      subst hba
      exact h b (by simp)
  · intro a ha
    have hmem : a ∈ l := by
      cases l with
      | nil => simp at ha
      | cons b t => exact List.mem_of_mem_getLast? ha
    exact h a hmem

/-- A token of non-whitespace bytes is accumulated whole by the
`bytes.split()` loop. -/
lemma splitWsAux_token (tok : List Nat) (h : ∀ b ∈ tok, isSpace b = false) :
    ∀ (l cur : List Nat), splitWsAux (tok ++ l) cur = splitWsAux l (tok.reverse ++ cur) := by
  induction tok with
  | nil => simp
  | cons b t ih =>
    intro l cur
    have hb : isSpace b = false := h b (by simp)
    have ht := ih (fun x hx => h x (by simp [hx])) l (b :: cur)
    simp [splitWsAux, hb, ht]

/-- `bytes.split()` of `tok ++ b' ' ++ rest` for a nonempty
whitespace-free token. -/
lemma splitWs_token_cons (tok rest : List Nat) (hne : tok ≠ [])
    (h : ∀ b ∈ tok, isSpace b = false) :
    splitWs (tok ++ 32 :: rest) = tok :: splitWs rest := by
  rw [splitWs, splitWsAux_token tok h (32 :: rest) []]
  simp [splitWsAux, splitWs, hne, isSpace]

/-- `bytes.split()` of a single nonempty whitespace-free token. -/
lemma splitWs_single (tok : List Nat) (hne : tok ≠ [])
    (h : ∀ b ∈ tok, isSpace b = false) :
    splitWs tok = [tok] := by
  conv_lhs => rw [splitWs, show tok = tok ++ ([] : List Nat) by simp]
  rw [splitWsAux_token tok h [] []]
  simp [splitWsAux, List.isEmpty_iff, hne]

/-- More fuel never changes a successful header parse. -/
lemma parseHeaderLoop_mono {f g : Nat} (hle : f ≤ g) :
    ∀ {d : List Nat} {ow oh : Int} {mv : Option Int} {r},
      parseHeaderLoop f d ow oh mv = some r → parseHeaderLoop g d ow oh mv = some r := by
  induction f generalizing g with
  | zero => intro d ow oh mv r h; simp [parseHeaderLoop] at h
  | succ f ih =>
    intro d ow oh mv r h
    obtain ⟨g', rfl⟩ : ∃ g', g = g' + 1 := ⟨g - 1, by omega⟩
    rw [parseHeaderLoop] at h ⊢
    by_cases hc : ow ≠ 0 ∧ oh ≠ 0 ∧ mv ≠ none
    · rwa [if_pos hc] at h ⊢
    · rw [if_neg hc] at h ⊢
      dsimp only at h ⊢
      set step := headerLineStep (stripBytes (splitAtNewline d).1) ow oh mv with hstepdef
      clear_value step
      rcases step with _ | st
      · simp at h
      · dsimp only at h ⊢
        exact ih (by omega) h

/-- A successful header parse leaves an unread remainder no longer than
its input. -/
lemma parseHeaderLoop_rest_length {f : Nat} :
    ∀ {d : List Nat} {ow oh : Int} {mv : Option Int} {w hh m : Int} {rest : List Nat},
      parseHeaderLoop f d ow oh mv = some (w, hh, m, rest) → rest.length ≤ d.length := by
  induction f with
  | zero => intro d ow oh mv w hh m rest h; simp [parseHeaderLoop] at h
  | succ f ih =>
    intro d ow oh mv w hh m rest h
    rw [parseHeaderLoop] at h
    by_cases hc : ow ≠ 0 ∧ oh ≠ 0 ∧ mv ≠ none
    · rw [if_pos hc] at h
      simp only [Option.some.injEq, Prod.mk.injEq] at h
      rw [← h.2.2.2]
    · rw [if_neg hc] at h
      dsimp only at h
      set step := headerLineStep (stripBytes (splitAtNewline d).1) ow oh mv with hstepdef
      clear_value step
      rcases step with _ | st
      · simp at h
      · dsimp only at h
        exact le_trans (ih h) (splitAtNewline_snd_length_le d)

/-- Appending bytes after a successful header parse with a nonempty
remainder only extends the remainder. -/
lemma parseHeaderLoop_append {f : Nat} :
    ∀ {d e : List Nat} {ow oh : Int} {mv : Option Int} {w hh m : Int} {rest : List Nat},
      parseHeaderLoop f d ow oh mv = some (w, hh, m, rest) → rest ≠ [] →
      parseHeaderLoop f (d ++ e) ow oh mv = some (w, hh, m, rest ++ e) := by
  induction f with
  | zero => intro d e ow oh mv w hh m rest hp _; simp [parseHeaderLoop] at hp
  | succ f ih =>
    intro d e ow oh mv w hh m rest hp hne
    rw [parseHeaderLoop] at hp ⊢
    by_cases hc : ow ≠ 0 ∧ oh ≠ 0 ∧ mv ≠ none
    · rw [if_pos hc] at hp ⊢
      simp only [Option.some.injEq, Prod.mk.injEq] at hp ⊢
      exact ⟨hp.1, hp.2.1, hp.2.2.1, by rw [← hp.2.2.2]⟩
    · rw [if_neg hc] at hp ⊢
      dsimp only at hp ⊢
      have hr2 : (splitAtNewline d).2 ≠ [] := by
        intro h0
        rcases hstep : headerLineStep (stripBytes (splitAtNewline d).1) ow oh mv with _ | st
        · rw [hstep] at hp; simp at hp
        · rw [hstep] at hp
          dsimp only at hp
          have := parseHeaderLoop_rest_length hp
          rw [h0] at this
          simp at this
          exact hne this
      rw [splitAtNewline_append d e hr2]
      dsimp only
      set step := headerLineStep (stripBytes (splitAtNewline d).1) ow oh mv with hstepdef
      clear_value step
      rcases step with _ | st
      · simp at hp
      · dsimp only at hp ⊢
        exact ih hp hne

/-- `headerOf` is stable under appending bytes when it leaves a nonempty
remainder. -/
lemma headerOf_append {b e : List Nat} {w hh m : Int} {rest : List Nat}
    (hp : headerOf b = some (w, hh, m, rest)) (hne : rest ≠ []) :
    headerOf (b ++ e) = some (w, hh, m, rest ++ e) := by
  rw [headerOf] at hp ⊢
  by_cases hmagic : stripBytes (splitAtNewline b).1 = [80, 54]
  · rw [if_pos hmagic] at hp
    have h2 : (splitAtNewline b).2 ≠ [] := by
      intro h0
      have hl := parseHeaderLoop_rest_length hp
      rw [h0] at hl
      simp at hl
      exact hne hl
    rw [splitAtNewline_append b e h2]
    dsimp only
    rw [if_pos hmagic]
    exact parseHeaderLoop_mono (by simp) (parseHeaderLoop_append hp hne)
  · rw [if_neg hmagic] at hp
    simp at hp

/-- `calc` reads the file only through its header parse and remainder. -/
lemma calcPPM_congr {b1 b2 : List Nat} (h : headerOf b1 = headerOf b2)
    (tRes : Option (Int × Int)) : calcPPM b1 tRes = calcPPM b2 tRes := by
  rw [calcPPM, calcPPM, h]

/-- A token that parses as an integer is nonempty. -/
lemma parseInt_ne_nil {tok : List Nat} {v : Int} (h : parseInt tok = some v) :
    tok ≠ [] := by
  intro h0
  subst h0
  simp [parseInt, digitsVal] at h

/-- A token that parses as an integer does not start with `#`. -/
lemma parseInt_head_not_comment {tok : List Nat} {v : Int} (h : parseInt tok = some v) :
    tok.head? ≠ some 35 := by
  intro hh
  cases tok with
  | nil => simp at hh
  | cons b t =>
    have hb : b = 35 := by simpa using hh
    subst hb
    rw [show parseInt (35 :: t) = (digitsVal (35 :: t)).map Int.ofNat from rfl] at h
    simp [digitsVal, isDigit] at h

end HeaderLemmas

section C1

/-- A 2×2 P6 test image: `P6\n2 2 255\n` followed by the raw rows
(10,10,10),(20,20,20) then (30,30,30),(40,40,40). -/
def c1Bytes : List Nat :=
  [80, 54, 10, 50, 32, 50, 32, 50, 53, 53, 10] ++
  [10, 10, 10, 20, 20, 20, 30, 30, 30, 40, 40, 40]

/-- What `calc` actually returns for `c1Bytes` at target resolution
(3, 2): the `arr_idx = ty * th + tx` flat index writes cell 2 twice and
never writes cell 5, which stays `None`. -/
def c1Actual : FrameBuffer :=
  [some (mkRat 2 17, mkRat 2 17, mkRat 2 17), some (mkRat 2 17, mkRat 2 17, mkRat 2 17),
   some (mkRat 2 51, mkRat 2 51, mkRat 2 51), some (mkRat 2 51, mkRat 2 51, mkRat 2 51),
   some (mkRat 4 51, mkRat 4 51, mkRat 4 51), none]

/-- Modelled from the spec: the intended bottom-left-origin row-major
buffer for `c1Bytes` at target resolution (3, 2), with the sample for
target pixel (tx, ty) at flat index `ty * tw + tx` and every cell
written. -/
def c1Intended : FrameBuffer :=
  [some (mkRat 2 17, mkRat 2 17, mkRat 2 17), some (mkRat 2 17, mkRat 2 17, mkRat 2 17),
   some (mkRat 8 51, mkRat 8 51, mkRat 8 51),
   some (mkRat 2 51, mkRat 2 51, mkRat 2 51), some (mkRat 2 51, mkRat 2 51, mkRat 2 51),
   some (mkRat 4 51, mkRat 4 51, mkRat 4 51)]

/-- C1: refuted — the decode is NOT row-major with the sample for target
pixel (tx, ty) at flat index `ty * tw + tx` with every cell written:
`calc` uses `arr_idx = ty * th + tx`, so for the 2×2 image `c1Bytes` at
target (3, 2) cell 5 is left unwritten (`None`) and the result differs
from the intended row-major buffer, while at target (2, 3) the code
raises an uncaught `IndexError`. The spec states the intended addressing
and itself flags this slip, and `calc`'s own docstring promises the
Screen's row-major layout, so this is a code bug. -/
theorem c1_flat_index_is_ty_mul_th :
    calcPPM c1Bytes (some (3, 2)) = .ok c1Actual ∧
    c1Actual.getD 5 none = none ∧
    c1Actual ≠ c1Intended ∧
    calcPPM c1Bytes (some (2, 3)) = .raised := by
  refine ⟨by decide, by decide, by decide, by decide⟩

end C1

section C6

/-- A P6 file whose header declares max value 0: `P6\n2 2 0\n` plus 12
payload bytes of value 7. -/
def c6Bytes : List Nat := [80, 54, 10, 50, 32, 50, 32, 48, 10] ++ List.replicate 12 7

/-- C6 counterexample: a parsed max-value of 0 does NOT make the decode
fail — `calc` only prints a warning and returns a buffer (of zero
samples): the claim that non-positive max-value is fatal is false on the
code. -/
theorem c6_max_value_zero_still_decodes :
    headerOf c6Bytes = some (2, 2, 0, List.replicate 12 7) ∧
    calcPPM c6Bytes none = .ok (List.replicate 4 (some ((0 : ℚ), (0 : ℚ), (0 : ℚ)))) := by
  refine ⟨by decide, by decide⟩

/-- C6 (amended): decode does fail whenever the parsed width or height
ends up non-positive, whatever the max-value — the post-header check
returns the error for any header parse whose width or height is
non-positive, and every successful decode forces `0 < ow ∧ 0 < oh` —
while a parsed max-value that is 0 or negative is only a warning: decode
proceeds and every produced sample is (0, 0, 0). -/
theorem c6_nonpositive_dims_fatal_maxval_warns (b1 b2 : List Nat)
    (tRes1 tRes2 : Option (Int × Int)) (ow1 oh1 mv1 ow2 oh2 mv2 : Int)
    (rest1 rest2 : List Nat) (pa : FrameBuffer)
    (hhd1 : headerOf b1 = some (ow1, oh1, mv1, rest1))
    (hdim1 : ow1 ≤ 0 ∨ oh1 ≤ 0)
    (hhd2 : headerOf b2 = some (ow2, oh2, mv2, rest2))
    (hmv2 : mv2 ≤ 0)
    (hok : calcPPM b2 tRes2 = .ok pa) :
    calcPPM b1 tRes1 = .err ∧
    0 < ow2 ∧ 0 < oh2 ∧
      pa.all (fun c => decide (c = none) ||
        decide (c = some ((0 : ℚ), (0 : ℚ), (0 : ℚ)))) = true := by
  refine ⟨?_, ?_⟩
  · rw [calcPPM, hhd1]
    dsimp only
    rw [if_pos hdim1]
  · rw [calcPPM, hhd2] at hok
    dsimp only at hok
    by_cases hdim : ow2 ≤ 0 ∨ oh2 ≤ 0
    · rw [if_pos hdim] at hok
      exact absurd hok (by simp)
    · rw [if_neg hdim] at hok
      push_neg at hdim
      refine ⟨by omega, by omega, ?_⟩
      have hfill : ∀ tw th : Nat,
          runResample (rest2.take (ow2.toNat * oh2.toNat * 3)) ow2.toNat oh2.toNat tw th mv2
            = .ok pa →
          pa.all (fun c => decide (c = none) ||
            decide (c = some ((0 : ℚ), (0 : ℚ), (0 : ℚ)))) = true := by
        intro tw th hrun
        rw [runResample] at hrun
        set pairs := (List.range th).flatMap fun ty => (List.range tw).map fun tx => (ty, tx)
          with hpairs
        rcases hres : fillLoop (rest2.take (ow2.toNat * oh2.toNat * 3)) ow2.toNat oh2.toNat
            tw th mv2 pairs (List.replicate (tw * th) none) with _ | pa'
        · rw [hres] at hrun; exact absurd hrun (by simp)
        · rw [hres] at hrun
          have hpa : pa' = pa := by injection hrun
          subst hpa
          rw [List.all_eq_true]
          intro c hc
          rcases fillLoop_mem _ _ _ _ _ _ pairs _ _ hres c hc with hmem | ⟨tx, ty, hw⟩
          · simp [List.eq_of_mem_replicate hmem]
          · rw [hw, samplePixel_of_nonpos _ _ _ _ _ _ hmv2]
            simp
      split at hok
      · exact absurd hok (by simp)
      · split at hok
        · exact hfill _ _ hok
        · split at hok
          · exact absurd hok (by simp)
          · exact hfill _ _ hok

/-- A P6 file whose header parses to a negative width with the ordinary
max value: `P6\n-2 2 255\n`. -/
def c6BytesNeg : List Nat := [80, 54, 10, 45, 50, 32, 50, 32, 50, 53, 53, 10]

/-- Witness for `c6_nonpositive_dims_fatal_maxval_warns`: the
negative-width header `P6\n-2 2 255\n` fails to decode, and the
max-value-0 file `c6Bytes` decodes to all-zero samples. -/
theorem c6_nonpositive_dims_fatal_maxval_warns_witness :
    calcPPM c6BytesNeg none = .err ∧
    (0 : Int) < 2 ∧ (0 : Int) < 2 ∧
      (List.replicate 4 (some ((0 : ℚ), (0 : ℚ), (0 : ℚ)))).all
        (fun c => decide (c = none) ||
          decide (c = some ((0 : ℚ), (0 : ℚ), (0 : ℚ)))) = true :=
  c6_nonpositive_dims_fatal_maxval_warns c6BytesNeg c6Bytes none none (-2) 2 255 2 2 0
    [] (List.replicate 12 7) (List.replicate 4 (some ((0 : ℚ), (0 : ℚ), (0 : ℚ))))
    (by decide) (by decide) (by decide) (by decide) (by decide)

end C6

section C10

/-- A P6 file whose payload is one byte short: `P6\n2 2 255\n` followed
by only 11 payload bytes (12 expected). -/
def c10Short : List Nat := [80, 54, 10, 50, 32, 50, 32, 50, 53, 53, 10] ++ List.replicate 11 0

/-- The identity-resolution decode of `c1Bytes` (source row order
vertically flipped, channels divided by 255). -/
def c10Pa : FrameBuffer :=
  [some (mkRat 2 17, mkRat 2 17, mkRat 2 17), some (mkRat 8 51, mkRat 8 51, mkRat 8 51),
   some (mkRat 2 51, mkRat 2 51, mkRat 2 51), some (mkRat 4 51, mkRat 4 51, mkRat 4 51)]

/-- C10: decode reads exactly `width * height * 3` payload bytes and
ignores anything after them — appending arbitrary extra bytes to any
successfully decoding file neither fails nor changes the returned
buffer, while a file whose remainder after the header is shorter than
`width * height * 3` returns an error and no buffer. -/
theorem c10_payload_exact (b1 b2 extra : List Nat) (tRes : Option (Int × Int))
    (pa : FrameBuffer) (ow oh mv : Int) (rest : List Nat)
    (hok : calcPPM b1 tRes = .ok pa)
    (hhd : headerOf b2 = some (ow, oh, mv, rest))
    (hshort : rest.length < ow.toNat * oh.toNat * 3) :
    calcPPM (b1 ++ extra) tRes = .ok pa ∧ calcPPM b2 tRes = .err := by
  constructor
  · rcases hh1 : headerOf b1 with _ | ⟨w1, h1, m1, r1⟩
    · rw [calcPPM, hh1] at hok
      exact absurd hok (by simp)
    · rw [calcPPM, hh1] at hok
      dsimp only at hok
      by_cases hdim : w1 ≤ 0 ∨ h1 ≤ 0
      · rw [if_pos hdim] at hok
        exact absurd hok (by simp)
      · rw [if_neg hdim] at hok
        by_cases hlen : (List.take (w1.toNat * h1.toNat * 3) r1).length ≠ w1.toNat * h1.toNat * 3
        · rw [if_pos hlen] at hok
          exact absurd hok (by simp)
        · rw [if_neg hlen] at hok
          have hle : w1.toNat * h1.toNat * 3 ≤ r1.length := by
            rw [List.length_take] at hlen
            omega
          have hr1ne : r1 ≠ [] := by
            intro h0
            rw [h0] at hle
            simp at hle
            omega
          have hnew := headerOf_append (e := extra) hh1 hr1ne
          rw [calcPPM, hnew]
          dsimp only
          rw [if_neg hdim, List.take_append_of_le_length hle, if_neg hlen]
          exact hok
  · rw [calcPPM, hhd]
    dsimp only
    by_cases hdim : ow ≤ 0 ∨ oh ≤ 0
    · rw [if_pos hdim]
    · rw [if_neg hdim, if_pos (by rw [List.length_take]; omega)]

/-- Witness for `c10_payload_exact`: the 2×2 image with three junk bytes
appended decodes to the same buffer, and the short-payload file fails. -/
theorem c10_payload_exact_witness :
    calcPPM (c1Bytes ++ [9, 9, 9]) none = .ok c10Pa ∧ calcPPM c10Short none = .err :=
  c10_payload_exact c1Bytes c10Short [9, 9, 9] none c10Pa 2 2 255 (List.replicate 11 0)
    (by decide) (by decide) (by decide)

end C10

section C7

/-- The head of a list is a member. -/
lemma mem_of_head?_eq {l : List Nat} {a : Nat} (h : l.head? = some a) : a ∈ l := by
  cases l with
  | nil => simp at h
  | cons b t =>
    have hba : b = a := by simpa using h
    subst hba
    exact List.mem_cons_self b t

/-- Whitespace-free bytes are not newlines. -/
lemma ne_ten_of_nonspace {l : List Nat} (h : ∀ b ∈ l, isSpace b = false) :
    ∀ b ∈ l, b ≠ 10 := by
  intro b hb h10
  subst h10
  simpa [isSpace] using h 10 hb

/-- `getLast?` skips past a separator when the tail is nonempty. -/
lemma getLast?_append_cons_of_ne_nil (l : List Nat) (a : Nat) (m : List Nat) (hm : m ≠ []) :
    (l ++ a :: m).getLast? = m.getLast? := by
  rw [List.getLast?_append_cons]
  cases m with
  | nil => exact absurd rfl hm
  | cons b t => rw [List.getLast?_cons_cons]

/-- `bytes.strip()` is the identity on `wb ++ b' ' ++ hb` for nonempty
whitespace-free tokens. -/
lemma stripBytes_two_tokens (wb hb2 : List Nat) (hwne : wb ≠ []) (hhne : hb2 ≠ [])
    (hwall : ∀ b ∈ wb, isSpace b = false) (hhall : ∀ b ∈ hb2, isSpace b = false) :
    stripBytes (wb ++ 32 :: hb2) = wb ++ 32 :: hb2 := by
  apply stripBytes_eq_self
  · intro a ha
    rw [List.head?_append_of_ne_nil wb hwne] at ha
    exact hwall a (mem_of_head?_eq ha)
  · intro a ha
    rw [getLast?_append_cons_of_ne_nil wb 32 hb2 hhne] at ha
    exact hhall a (List.mem_of_mem_getLast? ha)

/-- `bytes.strip()` is the identity on `wb ++ b' ' ++ hb ++ b' ' ++ mvb`
for nonempty whitespace-free tokens. -/
lemma stripBytes_three_tokens (wb hb2 mvb : List Nat)
    (hwne : wb ≠ []) (hmne : mvb ≠ [])
    (hwall : ∀ b ∈ wb, isSpace b = false) (hmall : ∀ b ∈ mvb, isSpace b = false) :
    stripBytes (wb ++ 32 :: hb2 ++ 32 :: mvb) = wb ++ 32 :: hb2 ++ 32 :: mvb := by
  apply stripBytes_eq_self
  · intro a ha
    rw [show wb ++ 32 :: hb2 ++ 32 :: mvb = wb ++ (32 :: hb2 ++ 32 :: mvb) by simp,
      List.head?_append_of_ne_nil wb hwne] at ha
    exact hwall a (mem_of_head?_eq ha)
  · intro a ha
    rw [show wb ++ 32 :: hb2 ++ 32 :: mvb = wb ++ 32 :: (hb2 ++ 32 :: mvb) by simp] at ha
    rw [getLast?_append_cons_of_ne_nil wb 32 (hb2 ++ 32 :: mvb) (by simp)] at ha
    rw [getLast?_append_cons_of_ne_nil hb2 32 mvb hmne] at ha
    exact hmall a (List.mem_of_mem_getLast? ha)

/-- A nonempty list has `isEmpty = false`. -/
lemma isEmpty_false_of_ne_nil {α : Type _} {l : List α} (h : l ≠ []) : l.isEmpty = false := by
  cases l with
  | nil => exact absurd rfl h
  | cons b t => rfl

/-- One header-loop iteration on a `width height` line with `ow` still
unset: parses both dimensions, leaves the max value unchanged. -/
lemma headerLineStep_wh (wb hb2 : List Nat) (mv : Option Int) (ow oh : Int)
    (hwp : parseInt wb = some ow) (hhp : parseInt hb2 = some oh)
    (hwall : ∀ b ∈ wb, isSpace b = false) (hhall : ∀ b ∈ hb2, isSpace b = false)
    (hlen : (wb ++ 32 :: hb2).length ≤ 100) :
    headerLineStep (wb ++ 32 :: hb2) 0 0 mv = some (ow, oh, mv) := by
  have hwne := parseInt_ne_nil hwp
  have hhne := parseInt_ne_nil hhp
  have h1 : ((wb ++ 32 :: hb2).isEmpty || decide ((wb ++ 32 :: hb2).length > 100)) = false := by
    rw [Bool.or_eq_false_iff]
    exact ⟨isEmpty_false_of_ne_nil (by simp), by simp only [decide_eq_false_iff_not]; omega⟩
  have h2 : (wb ++ 32 :: hb2).head? ≠ some 35 := by
    rw [List.head?_append_of_ne_nil wb hwne]
    exact parseInt_head_not_comment hwp
  rw [headerLineStep, h1]
  simp only [Bool.false_eq_true, if_false]
  rw [if_neg h2, splitWs_token_cons wb hb2 hwne hwall, splitWs_single hb2 hhne hhall]
  simp only [true_and, eq_self_iff_true]
  rw [if_pos (show 2 ≤ ([wb, hb2] : List (List Nat)).length by simp)]
  simp only [List.getD_cons_zero, List.getD_cons_succ]
  rw [hwp, hhp]
  simp

/-- One header-loop iteration on a `width height maxval` line with `ow`
still unset: parses all three values. -/
lemma headerLineStep_whm (wb hb2 mvb : List Nat) (ow oh mv : Int)
    (hwp : parseInt wb = some ow) (hhp : parseInt hb2 = some oh)
    (hmp : parseInt mvb = some mv)
    (hwall : ∀ b ∈ wb, isSpace b = false) (hhall : ∀ b ∈ hb2, isSpace b = false)
    (hmall : ∀ b ∈ mvb, isSpace b = false)
    (hlen : (wb ++ 32 :: hb2 ++ 32 :: mvb).length ≤ 100) :
    headerLineStep (wb ++ 32 :: hb2 ++ 32 :: mvb) 0 0 none = some (ow, oh, some mv) := by
  have hwne := parseInt_ne_nil hwp
  have hhne := parseInt_ne_nil hhp
  have hmne := parseInt_ne_nil hmp
  have h1 : ((wb ++ 32 :: hb2 ++ 32 :: mvb).isEmpty ||
      decide ((wb ++ 32 :: hb2 ++ 32 :: mvb).length > 100)) = false := by
    rw [Bool.or_eq_false_iff]
    exact ⟨isEmpty_false_of_ne_nil (by simp), by simp only [decide_eq_false_iff_not]; omega⟩
  have h2 : (wb ++ 32 :: hb2 ++ 32 :: mvb).head? ≠ some 35 := by
    rw [show wb ++ 32 :: hb2 ++ 32 :: mvb = wb ++ (32 :: hb2 ++ 32 :: mvb) by simp,
      List.head?_append_of_ne_nil wb hwne]
    exact parseInt_head_not_comment hwp
  rw [headerLineStep, h1]
  simp only [Bool.false_eq_true, if_false]
  rw [if_neg h2, show wb ++ 32 :: hb2 ++ 32 :: mvb = wb ++ 32 :: (hb2 ++ 32 :: mvb) by simp,
    splitWs_token_cons wb (hb2 ++ 32 :: mvb) hwne hwall,
    splitWs_token_cons hb2 mvb hhne hhall, splitWs_single mvb hmne hmall]
  simp only [true_and, eq_self_iff_true]
  rw [if_pos (show 2 ≤ ([wb, hb2, mvb] : List (List Nat)).length by simp)]
  simp only [List.getD_cons_zero, List.getD_cons_succ]
  rw [hwp, hhp]
  simp [hmp]

/-- One header-loop iteration on a lone `maxval` line with the
dimensions already set: parses the max value. -/
lemma headerLineStep_mv (mvb : List Nat) (ow oh mv : Int)
    (hw0 : ow ≠ 0)
    (hmp : parseInt mvb = some mv)
    (hmall : ∀ b ∈ mvb, isSpace b = false)
    (hlen : mvb.length ≤ 100) :
    headerLineStep mvb ow oh none = some (ow, oh, some mv) := by
  have hmne := parseInt_ne_nil hmp
  have h1 : (mvb.isEmpty || decide (mvb.length > 100)) = false := by
    rw [Bool.or_eq_false_iff]
    exact ⟨isEmpty_false_of_ne_nil hmne, by simp only [decide_eq_false_iff_not]; omega⟩
  rw [headerLineStep, h1]
  simp only [Bool.false_eq_true, if_false]
  rw [if_neg (parseInt_head_not_comment hmp), splitWs_single mvb hmne hmall]
  have hc1 : ¬(ow = 0 ∧ 2 ≤ ([mvb] : List (List Nat)).length) := by
    rintro ⟨h0, -⟩
    exact hw0 h0
  rw [if_neg hc1]
  have hc2 : (none : Option Int).isNone = true ∧ 1 ≤ ([mvb] : List (List Nat)).length :=
    ⟨rfl, by simp⟩
  rw [if_pos hc2]
  simp only [List.getD_cons_zero]
  rw [hmp]

/-- Header loop on a stream laid out `w h\nmv\n<payload>`: three
iterations reach the exit with the payload untouched. -/
lemma parseHeaderLoop_two_line_run (wb hb2 mvb payload : List Nat) (ow oh mv : Int)
    (hwp : parseInt wb = some ow) (hhp : parseInt hb2 = some oh) (hmp : parseInt mvb = some mv)
    (hwall : ∀ b ∈ wb, isSpace b = false) (hhall : ∀ b ∈ hb2, isSpace b = false)
    (hmall : ∀ b ∈ mvb, isSpace b = false)
    (hw0 : ow ≠ 0) (hh0 : oh ≠ 0)
    (hlen1 : (wb ++ 32 :: hb2).length ≤ 100) (hlen2 : mvb.length ≤ 100) :
    parseHeaderLoop 3 ((wb ++ 32 :: hb2) ++ 10 :: (mvb ++ 10 :: payload)) 0 0 none
      = some (ow, oh, mv, payload) := by
  have hd2 : splitAtNewline ((wb ++ 32 :: hb2) ++ 10 :: (mvb ++ 10 :: payload))
      = (wb ++ 32 :: hb2, mvb ++ 10 :: payload) := by
    apply splitAtNewline_line
    intro b hb
    rcases List.mem_append.mp hb with h | h
    · exact ne_ten_of_nonspace hwall b h
    · rcases List.mem_cons.mp h with rfl | h
      · decide
      · exact ne_ten_of_nonspace hhall b h
  rw [parseHeaderLoop,
    if_neg (show ¬((0 : Int) ≠ 0 ∧ (0 : Int) ≠ 0 ∧ (none : Option Int) ≠ none) by simp)]
  dsimp only
  rw [hd2]
  dsimp only
  rw [stripBytes_two_tokens wb hb2 (parseInt_ne_nil hwp) (parseInt_ne_nil hhp) hwall hhall,
    headerLineStep_wh wb hb2 none ow oh hwp hhp hwall hhall hlen1]
  dsimp only
  rw [parseHeaderLoop,
    if_neg (show ¬(ow ≠ 0 ∧ oh ≠ 0 ∧ (none : Option Int) ≠ none) by simp)]
  dsimp only
  rw [splitAtNewline_line mvb payload (ne_ten_of_nonspace hmall)]
  dsimp only
  rw [stripBytes_eq_self_of_all mvb hmall,
    headerLineStep_mv mvb ow oh mv hw0 hmp hmall hlen2]
  dsimp only
  rw [parseHeaderLoop,
    if_pos (show ow ≠ 0 ∧ oh ≠ 0 ∧ (some mv : Option Int) ≠ none from ⟨hw0, hh0, by simp⟩)]
  simp

/-- Header loop on a stream laid out `w h mv\n<payload>`: two iterations
reach the exit with the payload untouched. -/
lemma parseHeaderLoop_one_line_run (wb hb2 mvb payload : List Nat) (ow oh mv : Int)
    (hwp : parseInt wb = some ow) (hhp : parseInt hb2 = some oh) (hmp : parseInt mvb = some mv)
    (hwall : ∀ b ∈ wb, isSpace b = false) (hhall : ∀ b ∈ hb2, isSpace b = false)
    (hmall : ∀ b ∈ mvb, isSpace b = false)
    (hw0 : ow ≠ 0) (hh0 : oh ≠ 0)
    (hlen3 : (wb ++ 32 :: hb2 ++ 32 :: mvb).length ≤ 100) :
    parseHeaderLoop 2 ((wb ++ 32 :: hb2 ++ 32 :: mvb) ++ 10 :: payload) 0 0 none
      = some (ow, oh, mv, payload) := by
  have hd1 : splitAtNewline ((wb ++ 32 :: hb2 ++ 32 :: mvb) ++ 10 :: payload)
      = (wb ++ 32 :: hb2 ++ 32 :: mvb, payload) := by
    apply splitAtNewline_line
    intro b hb
    rcases List.mem_append.mp hb with h | h
    · rcases List.mem_append.mp h with h2 | h2
      · exact ne_ten_of_nonspace hwall b h2
      · rcases List.mem_cons.mp h2 with rfl | h3
        · decide
        · exact ne_ten_of_nonspace hhall b h3
    · rcases List.mem_cons.mp h with rfl | h2
      · decide
      · exact ne_ten_of_nonspace hmall b h2
  rw [parseHeaderLoop,
    if_neg (show ¬((0 : Int) ≠ 0 ∧ (0 : Int) ≠ 0 ∧ (none : Option Int) ≠ none) by simp)]
  dsimp only
  rw [hd1]
  dsimp only
  rw [stripBytes_three_tokens wb hb2 mvb (parseInt_ne_nil hwp) (parseInt_ne_nil hmp)
    hwall hmall,
    headerLineStep_whm wb hb2 mvb ow oh mv hwp hhp hmp hwall hhall hmall hlen3]
  dsimp only
  rw [parseHeaderLoop,
    if_pos (show ow ≠ 0 ∧ oh ≠ 0 ∧ (some mv : Option Int) ≠ none from ⟨hw0, hh0, by simp⟩)]
  simp

/-- C7 counterexample: the claim that each header token may sit on its
own line is false — with width and height on separate lines
(`P6\n2\n2\n255\n` plus a full 12-byte payload) the width token is
consumed as the max value and decode fails, while the single-line header
form of the same image decodes fine. -/
theorem c7_separate_width_height_lines_fail :
    calcPPM ([80, 54, 10, 50, 10, 50, 10, 50, 53, 53, 10] ++ List.replicate 12 65) none
      = .err ∧
    calcPPM ([80, 54, 10, 50, 32, 50, 32, 50, 53, 53, 10] ++ List.replicate 12 65) none
      = .ok (List.replicate 4 (some (mkRat 13 51, mkRat 13 51, mkRat 13 51))) :=
  ⟨by decide, by decide⟩

/-- C7 (amended): header tokens may be split across lines only as the
code accepts them — width and height together on one non-comment line
and the max value alone on a later line; that form decodes exactly like
the equivalent single-line header (width alone on its first header line
is instead consumed as the max value and the decode fails, see the
counterexample). -/
theorem c7_maxval_on_separate_line_equivalent
    (wb hb2 mvb payload : List Nat) (tRes : Option (Int × Int)) (ow oh mv : Int)
    (hwp : parseInt wb = some ow) (hhp : parseInt hb2 = some oh) (hmp : parseInt mvb = some mv)
    (hwall : ∀ b ∈ wb, isSpace b = false) (hhall : ∀ b ∈ hb2, isSpace b = false)
    (hmall : ∀ b ∈ mvb, isSpace b = false)
    (hw0 : ow ≠ 0) (hh0 : oh ≠ 0)
    (hlen1 : (wb ++ 32 :: hb2).length ≤ 100) (hlen2 : mvb.length ≤ 100)
    (hlen3 : (wb ++ 32 :: hb2 ++ 32 :: mvb).length ≤ 100) :
    headerOf (80 :: 54 :: 10 :: ((wb ++ 32 :: hb2) ++ 10 :: (mvb ++ 10 :: payload)))
      = some (ow, oh, mv, payload) ∧
    calcPPM (80 :: 54 :: 10 :: ((wb ++ 32 :: hb2) ++ 10 :: (mvb ++ 10 :: payload))) tRes
      = calcPPM (80 :: 54 :: 10 :: ((wb ++ 32 :: hb2 ++ 32 :: mvb) ++ 10 :: payload)) tRes := by
  have hsplit0 : ∀ x : List Nat, splitAtNewline (80 :: 54 :: 10 :: x) = ([80, 54], x) := by
    intro x
    simp [splitAtNewline]
  have hof1 : headerOf (80 :: 54 :: 10 :: ((wb ++ 32 :: hb2) ++ 10 :: (mvb ++ 10 :: payload)))
      = some (ow, oh, mv, payload) := by
    rw [headerOf, hsplit0]
    dsimp only
    rw [if_pos (show stripBytes [80, 54] = [80, 54] from by decide)]
    refine parseHeaderLoop_mono ?_ (parseHeaderLoop_two_line_run wb hb2 mvb payload ow oh mv
      hwp hhp hmp hwall hhall hmall hw0 hh0 hlen1 hlen2)
    simp
    omega
  have hof2 : headerOf (80 :: 54 :: 10 :: ((wb ++ 32 :: hb2 ++ 32 :: mvb) ++ 10 :: payload))
      = some (ow, oh, mv, payload) := by
    rw [headerOf, hsplit0]
    dsimp only
    rw [if_pos (show stripBytes [80, 54] = [80, 54] from by decide)]
    refine parseHeaderLoop_mono ?_ (parseHeaderLoop_one_line_run wb hb2 mvb payload ow oh mv
      hwp hhp hmp hwall hhall hmall hw0 hh0 hlen3)
    simp
    omega
  exact ⟨hof1, calcPPM_congr (hof1.trans hof2.symm) tRes⟩

/-- Witness for `c7_maxval_on_separate_line_equivalent` at the concrete
2×2 image with max value 255 split across header lines. -/
theorem c7_maxval_on_separate_line_equivalent_witness :
    headerOf (80 :: 54 :: 10 ::
        (([50] ++ 32 :: [50]) ++ 10 :: ([50, 53, 53] ++ 10 :: List.replicate 12 65)))
      = some (2, 2, 255, List.replicate 12 65) ∧
    calcPPM (80 :: 54 :: 10 ::
        (([50] ++ 32 :: [50]) ++ 10 :: ([50, 53, 53] ++ 10 :: List.replicate 12 65))) none
      = calcPPM (80 :: 54 :: 10 ::
        (([50] ++ 32 :: [50] ++ 32 :: [50, 53, 53]) ++ 10 :: List.replicate 12 65)) none :=
  c7_maxval_on_separate_line_equivalent [50] [50] [50, 53, 53] (List.replicate 12 65) none
    2 2 255 (by decide) (by decide) (by decide) (by decide) (by decide) (by decide)
    (by decide) (by decide) (by decide) (by decide) (by decide)

end C7

section VideoJob

/-- A completion message posted by `Video._process_frame` through
`pushcall` onto the main thread: the frame's timestamp, the computed
pixel array (or `None`), and an optional error string (modelled as a
numeric id). -/
structure FrameMsg where
  t : ℚ
  pa : Option FrameBuffer
  err : Option Nat
deriving DecidableEq

/-- Main-thread state of a `Video` job. The `data` dict is modelled
extensionally as a function from timestamps; `readyCalls` counts the runs
of `_on_processing_complete` and `invocations` records each invoked
ready-callback (by id), in order. -/
structure VideoState where
  data : ℚ → Option FrameBuffer
  processedFrames : Nat
  framesToProcess : Nat
  error : Option Nat
  processingComplete : Bool
  onDataReadyCallback : Option Nat
  readyCalls : Nat
  invocations : List Nat

/-- The invocations a completion triggers: one for the registered
callback when there is one, none otherwise. -/
def callbackList (cb : Option Nat) : List Nat :=
  match cb with
  | some c => [c]
  | none => []

/-- `Video._on_processing_complete` (the activity context is modelled as
valid): invokes the registered ready-callback, if any. -/
def onProcessingComplete (st : VideoState) : VideoState :=
  { st with
    readyCalls := st.readyCalls + 1
    invocations := st.invocations ++ callbackList st.onDataReadyCallback }

/-- `Video._on_frame_processed`, executed on the main thread once per
completion message: bumps the processed count, records the first error,
stores a successful frame under its timestamp, and on reaching the total
marks the job complete and runs `_on_processing_complete`. -/
def onFrameProcessed (st : VideoState) (m : FrameMsg) : VideoState :=
  let st' := { st with
    processedFrames := st.processedFrames + 1
    error := (match m.err with
      | some _ => if st.error = none then m.err else st.error
      | none => st.error)
    data := (match m.pa with
      | some pa => fun t' => if t' = m.t then some pa else st.data t'
      | none => st.data) }
  if st.framesToProcess ≤ st.processedFrames + 1 then
    onProcessingComplete { st' with processingComplete := true }
  else st'

/-- `Video.set_on_data_ready_callback` (activity modelled valid): stores
the callback and, when the job is already complete, invokes it
immediately. -/
def setOnDataReadyCallback (st : VideoState) (cb : Nat) : VideoState :=
  let st' := { st with onDataReadyCallback := some cb }
  if st'.processingComplete then { st' with invocations := st'.invocations ++ [cb] }
  else st'

/-- A fresh video job right after `start_processing` has read a
timestamp map with `n ≥ 1` entries and spawned one thread per frame. -/
def initVideo (n : Nat) (cb : Option Nat) : VideoState :=
  { data := fun _ => none, processedFrames := 0, framesToProcess := n
    error := none, processingComplete := false, onDataReadyCallback := cb
    readyCalls := 0, invocations := [] }

/-- Draining the main-thread `pushcall` queue: completion messages are
applied in arrival order. -/
def processAll (st : VideoState) (msgs : List FrameMsg) : VideoState :=
  msgs.foldl onFrameProcessed st

/-- `Video._process_frame`: runs `calc` on its frame and always posts
exactly one completion message — a success message for a returned pixel
array, a `(t, None)` message when `calc` returns `None`, and a failure
message with an error string when `calc` raises. -/
def processFrameMsg (t : ℚ) (outcome : CalcResult) (errId : Nat) : FrameMsg :=
  match outcome with
  | .ok pa => { t := t, pa := some pa, err := none }
  | .err => { t := t, pa := none, err := none }
  | .raised => { t := t, pa := none, err := some errId }

/-- `_on_frame_processed` always bumps the count by one and never touches
the total or the registered callback. -/
lemma onFrameProcessed_fields (st : VideoState) (m : FrameMsg) :
    (onFrameProcessed st m).processedFrames = st.processedFrames + 1 ∧
    (onFrameProcessed st m).framesToProcess = st.framesToProcess ∧
    (onFrameProcessed st m).onDataReadyCallback = st.onDataReadyCallback := by
  rw [onFrameProcessed]
  split <;> simp [onProcessingComplete]

/-- Draining `n` messages always adds exactly `n` to the processed count. -/
lemma processAll_fields (msgs : List FrameMsg) :
    ∀ st : VideoState, (processAll st msgs).processedFrames = st.processedFrames + msgs.length ∧
      (processAll st msgs).framesToProcess = st.framesToProcess ∧
      (processAll st msgs).onDataReadyCallback = st.onDataReadyCallback := by
  induction msgs with
  | nil => intro st; simp [processAll]
  | cons m rest ih =>
    intro st
    rw [processAll, List.foldl_cons, ← processAll]
    obtain ⟨h1, h2, h3⟩ := ih (onFrameProcessed st m)
    obtain ⟨g1, g2, g3⟩ := onFrameProcessed_fields st m
    refine ⟨?_, ?_, ?_⟩
    · rw [h1, g1, List.length_cons]; omega
    · rw [h2, g2]
    · rw [h3, g3]

/-- A message applied strictly before the total is reached triggers
nothing. -/
lemma onFrameProcessed_no_trigger (st : VideoState) (m : FrameMsg)
    (h : st.processedFrames + 1 < st.framesToProcess) :
    (onFrameProcessed st m).readyCalls = st.readyCalls ∧
    (onFrameProcessed st m).processingComplete = st.processingComplete ∧
    (onFrameProcessed st m).invocations = st.invocations := by
  rw [onFrameProcessed, if_neg (by omega)]
  exact ⟨rfl, rfl, rfl⟩

/-- Draining messages that stop strictly short of the total leaves the
completion machinery untouched. -/
lemma processAll_short (msgs : List FrameMsg) :
    ∀ st : VideoState, st.processedFrames + msgs.length < st.framesToProcess →
      (processAll st msgs).readyCalls = st.readyCalls ∧
      (processAll st msgs).processingComplete = st.processingComplete ∧
      (processAll st msgs).invocations = st.invocations := by
  induction msgs with
  | nil => intro st _; exact ⟨rfl, rfl, rfl⟩
  | cons m rest ih =>
    intro st hlt
    rw [processAll, List.foldl_cons, ← processAll]
    rw [List.length_cons] at hlt
    obtain ⟨g1, g2, g3⟩ := onFrameProcessed_fields st m
    obtain ⟨h1, h2, h3⟩ := ih (onFrameProcessed st m) (by omega)
    obtain ⟨k1, k2, k3⟩ := onFrameProcessed_no_trigger st m (by omega)
    exact ⟨h1.trans k1, h2.trans k2, h3.trans k3⟩

/-- Draining exactly the remaining messages reaches the total: the job
completes, `_on_processing_complete` runs exactly once, and the callback
registered at that time (if any) is invoked exactly once. -/
lemma processAll_completes (msgs : List FrameMsg) :
    ∀ st : VideoState, msgs ≠ [] → st.processedFrames + msgs.length = st.framesToProcess →
      (processAll st msgs).readyCalls = st.readyCalls + 1 ∧
      (processAll st msgs).processingComplete = true ∧
      (processAll st msgs).invocations =
        st.invocations ++ callbackList st.onDataReadyCallback := by
  induction msgs with
  | nil => intro st h; exact absurd rfl h
  | cons m rest ih =>
    intro st _ htot
    rw [processAll, List.foldl_cons, ← processAll]
    rw [List.length_cons] at htot
    rcases Classical.em (rest = []) with rfl | hne
    · simp only [List.length_nil] at htot
      rw [processAll]
      simp only [List.foldl_nil]
      rw [onFrameProcessed, if_pos (by omega)]
      simp [onProcessingComplete]
    · obtain ⟨g1, g2, g3⟩ := onFrameProcessed_fields st m
      have hlen : 1 ≤ rest.length := List.length_pos.mpr hne
      obtain ⟨k1, k2, k3⟩ := onFrameProcessed_no_trigger st m (by omega)
      obtain ⟨h1, h2, h3⟩ := ih (onFrameProcessed st m) hne (by omega)
      refine ⟨by rw [h1, k1], h2, ?_⟩
      rw [h3, k3, g3]

/-- Timestamps not mentioned by any message keep their prior value in
the data dict. -/
lemma processAll_data_not_mem (msgs : List FrameMsg) :
    ∀ (st : VideoState) (t : ℚ), (∀ m ∈ msgs, m.t ≠ t) →
      (processAll st msgs).data t = st.data t := by
  induction msgs with
  | nil => intro st t _; rfl
  | cons m rest ih =>
    intro st t hno
    rw [processAll, List.foldl_cons, ← processAll]
    rw [ih (onFrameProcessed st m) t (fun m' hm' => hno m' (by simp [hm']))]
    have hne : t ≠ m.t := fun h => hno m (by simp) h.symm
    rw [onFrameProcessed]
    split <;> rcases m.pa with _ | pa <;> simp [onProcessingComplete, hne]

/-- With pairwise-distinct timestamps, draining the queue stores each
successful frame under its own timestamp, in any arrival order. -/
lemma processAll_data_mem (msgs : List FrameMsg) :
    ∀ st : VideoState, (msgs.map FrameMsg.t).Nodup →
      ∀ m ∈ msgs, ∀ pa, m.pa = some pa → (processAll st msgs).data m.t = some pa := by
  induction msgs with
  | nil => intro st _ m hm; simp at hm
  | cons m0 rest ih =>
    intro st hnd m hm pa hpa
    rw [List.map_cons, List.nodup_cons] at hnd
    rw [processAll, List.foldl_cons, ← processAll]
    rcases List.mem_cons.mp hm with rfl | hmem
    · have hnot : ∀ m' ∈ rest, m'.t ≠ m.t := by
        intro m' hm' heq
        exact hnd.1 (heq ▸ List.mem_map_of_mem FrameMsg.t hm')
      rw [processAll_data_not_mem rest _ m.t hnot]
      rw [onFrameProcessed, hpa]
      split <;> simp [onProcessingComplete]
    · exact ih (onFrameProcessed st m0) hnd.2 m hmem pa hpa

end VideoJob

section C2

/-- C2: for a video job with `N ≥ 1` timestamp entries whose decodes all
succeed, draining the completion queue runs `_on_processing_complete`
exactly once, only after all `N` completions (every proper prefix
triggers nothing), marks the job complete, and the final
timestamp→framebuffer mapping is identical for every arrival order of
the completions. -/
theorem c2_completion_once_order_independent
    (msgs msgs2 : List FrameMsg) (cb : Option Nat) (k : Nat)
    (hlen : 1 ≤ msgs.length)
    (hsucc : ∀ m ∈ msgs, m.pa ≠ none ∧ m.err = none)
    (hnd : (msgs.map FrameMsg.t).Nodup)
    (hperm : msgs.Perm msgs2)
    (hk : k < msgs.length) :
    (processAll (initVideo msgs.length cb) msgs).readyCalls = 1 ∧
    (processAll (initVideo msgs.length cb) msgs).processingComplete = true ∧
    (processAll (initVideo msgs.length cb) (msgs.take k)).readyCalls = 0 ∧
    (processAll (initVideo msgs.length cb) msgs2).readyCalls = 1 ∧
    (processAll (initVideo msgs.length cb) msgs2).processingComplete = true ∧
    (processAll (initVideo msgs.length cb) msgs).data
      = (processAll (initVideo msgs.length cb) msgs2).data := by
  have hne : msgs ≠ [] := by
    intro h
    rw [h] at hlen
    simp at hlen
  have h1 := processAll_completes msgs (initVideo msgs.length cb) hne (by simp [initVideo])
  have hplen : msgs2.length = msgs.length := hperm.length_eq.symm
  have hne2 : msgs2 ≠ [] := by
    intro h
    rw [h] at hplen
    simp at hplen
    omega
  have h2 := processAll_completes msgs2 (initVideo msgs.length cb) hne2
    (by simp [initVideo, hplen])
  have h3 := processAll_short (msgs.take k) (initVideo msgs.length cb)
    (by simp [initVideo, List.length_take]; omega)
  have hnd2 : (msgs2.map FrameMsg.t).Nodup := ((hperm.map FrameMsg.t).nodup_iff).mp hnd
  have hdata : (processAll (initVideo msgs.length cb) msgs).data
      = (processAll (initVideo msgs.length cb) msgs2).data := by
    funext t
    by_cases ht : ∃ m ∈ msgs, m.t = t
    · obtain ⟨m, hm, rfl⟩ := ht
      obtain ⟨hpa, -⟩ := hsucc m hm
      obtain ⟨pa, hpa'⟩ := Option.ne_none_iff_exists'.mp hpa
      rw [processAll_data_mem msgs _ hnd m hm pa hpa',
        processAll_data_mem msgs2 _ hnd2 m (hperm.mem_iff.mp hm) pa hpa']
    · push_neg at ht
      rw [processAll_data_not_mem msgs _ t ht,
        processAll_data_not_mem msgs2 _ t (fun m hm => ht m (hperm.mem_iff.mpr hm))]
  refine ⟨h1.1.trans (by simp [initVideo]), h1.2.1, h3.1.trans (by simp [initVideo]),
    h2.1.trans (by simp [initVideo]), h2.2.1, hdata⟩

/-- Two successful completion messages with distinct timestamps. -/
def c2MsgA : FrameMsg := ⟨mkRat 0 1, some [some (mkRat 1 1, mkRat 1 1, mkRat 1 1)], none⟩

/-- Second successful completion message, timestamp 1. -/
def c2MsgB : FrameMsg := ⟨mkRat 1 1, some [some (mkRat 0 1, mkRat 0 1, mkRat 0 1)], none⟩

/-- Witness for `c2_completion_once_order_independent` on a two-frame
job with the two arrival orders. -/
theorem c2_completion_once_order_independent_witness :
    (processAll (initVideo 2 (some 7)) [c2MsgA, c2MsgB]).readyCalls = 1 ∧
    (processAll (initVideo 2 (some 7)) [c2MsgA, c2MsgB]).processingComplete = true ∧
    (processAll (initVideo 2 (some 7)) ([c2MsgA, c2MsgB].take 1)).readyCalls = 0 ∧
    (processAll (initVideo 2 (some 7)) [c2MsgB, c2MsgA]).readyCalls = 1 ∧
    (processAll (initVideo 2 (some 7)) [c2MsgB, c2MsgA]).processingComplete = true ∧
    (processAll (initVideo 2 (some 7)) [c2MsgA, c2MsgB]).data
      = (processAll (initVideo 2 (some 7)) [c2MsgB, c2MsgA]).data :=
  c2_completion_once_order_independent [c2MsgA, c2MsgB] [c2MsgB, c2MsgA] (some 7) 1
    (by decide) (by decide) (by decide) (List.Perm.swap c2MsgB c2MsgA [])
    (by decide)

end C2

section C3

/-- C3: every per-frame decode unit posts exactly one completion message
whatever `calc` did — returned a buffer, returned `None`, or raised — so
a job whose units all complete (in any mix of successes and failures)
still counts up to the total, reaches its complete state, and triggers
completion exactly once; no failure stalls the count. -/
theorem c3_failure_completions_still_counted
    (units : List (ℚ × CalcResult × Nat)) (cb : Option Nat)
    (hne : units ≠ []) :
    (processAll (initVideo units.length cb)
      (units.map fun u => processFrameMsg u.1 u.2.1 u.2.2)).processedFrames = units.length ∧
    (processAll (initVideo units.length cb)
      (units.map fun u => processFrameMsg u.1 u.2.1 u.2.2)).processingComplete = true ∧
    (processAll (initVideo units.length cb)
      (units.map fun u => processFrameMsg u.1 u.2.1 u.2.2)).readyCalls = 1 := by
  have hmne : (units.map fun u => processFrameMsg u.1 u.2.1 u.2.2) ≠ [] := by
    simpa using hne
  have h1 := processAll_fields (units.map fun u => processFrameMsg u.1 u.2.1 u.2.2)
    (initVideo units.length cb)
  have h2 := processAll_completes (units.map fun u => processFrameMsg u.1 u.2.1 u.2.2)
    (initVideo units.length cb) hmne (by simp [initVideo])
  exact ⟨by rw [h1.1]; simp [initVideo], h2.2.1, h2.1.trans (by simp [initVideo])⟩

/-- Witness for `c3_failure_completions_still_counted`: one raising
decode and one `None`-returning decode still complete a two-frame job. -/
theorem c3_failure_completions_still_counted_witness :
    (processAll (initVideo 2 none)
      ([((mkRat 0 1 : ℚ), (CalcResult.raised, 5)), ((mkRat 1 1 : ℚ), (CalcResult.err, 6))].map
        fun u => processFrameMsg u.1 u.2.1 u.2.2)).processedFrames = 2 ∧
    (processAll (initVideo 2 none)
      ([((mkRat 0 1 : ℚ), (CalcResult.raised, 5)), ((mkRat 1 1 : ℚ), (CalcResult.err, 6))].map
        fun u => processFrameMsg u.1 u.2.1 u.2.2)).processingComplete = true ∧
    (processAll (initVideo 2 none)
      ([((mkRat 0 1 : ℚ), (CalcResult.raised, 5)), ((mkRat 1 1 : ℚ), (CalcResult.err, 6))].map
        fun u => processFrameMsg u.1 u.2.1 u.2.2)).readyCalls = 1 :=
  c3_failure_completions_still_counted
    [((mkRat 0 1 : ℚ), (CalcResult.raised, 5)), ((mkRat 1 1 : ℚ), (CalcResult.err, 6))] none
    (by decide)

end C3

section C8

/-- Main-thread state of an `Image` job's completion and callback
handling; `invocations` records each ready-callback invocation (by id)
in order. -/
structure ImageState where
  data : Option FrameBuffer
  error : Option Nat
  processingComplete : Bool
  onDataReadyCallback : Option Nat
  invocations : List Nat

/-- The `Image` job state at construction. -/
def initImage : ImageState :=
  { data := none, error := none, processingComplete := false
    onDataReadyCallback := none, invocations := [] }

/-- `Image._on_calc_complete` (activity modelled valid): stores the
result, marks the job complete, and invokes the callback if one is
registered. -/
def onCalcComplete (st : ImageState) (pa : Option FrameBuffer) (err : Option Nat) :
    ImageState :=
  let st' := { st with data := pa, error := err, processingComplete := true }
  match st'.onDataReadyCallback with
  | some cb => { st' with invocations := st'.invocations ++ [cb] }
  | none => st'

/-- `Image.set_on_data_ready_callback` (activity modelled valid): stores
the callback and, when processing is already complete, invokes it
immediately. -/
def imageSetOnDataReadyCallback (st : ImageState) (cb : Nat) : ImageState :=
  let st' := { st with onDataReadyCallback := some cb }
  if st'.processingComplete then { st' with invocations := st'.invocations ++ [cb] }
  else st'

/-- C8: a ready-callback registered on an image or video job before
completion is invoked exactly once, at completion (and not at
registration); one registered after the job is already complete is
invoked immediately and exactly once rather than dropped. -/
theorem c8_ready_callback_invoked_exactly_once
    (cb : Nat) (pa : Option FrameBuffer) (err : Option Nat) (msgs : List FrameMsg)
    (hne : msgs ≠ []) :
    (imageSetOnDataReadyCallback initImage cb).invocations = [] ∧
    (onCalcComplete (imageSetOnDataReadyCallback initImage cb) pa err).invocations = [cb] ∧
    (onCalcComplete initImage pa err).invocations = [] ∧
    (imageSetOnDataReadyCallback (onCalcComplete initImage pa err) cb).invocations = [cb] ∧
    (processAll (initVideo msgs.length (some cb)) msgs).invocations = [cb] ∧
    (setOnDataReadyCallback (processAll (initVideo msgs.length none) msgs) cb).invocations
      = [cb] := by
  have h1 := processAll_completes msgs (initVideo msgs.length (some cb)) hne
    (by simp [initVideo])
  have h2 := processAll_completes msgs (initVideo msgs.length none) hne
    (by simp [initVideo])
  refine ⟨?_, ?_, ?_, ?_, ?_, ?_⟩
  · simp [imageSetOnDataReadyCallback, initImage]
  · simp [onCalcComplete, imageSetOnDataReadyCallback, initImage]
  · simp [onCalcComplete, initImage]
  · simp [imageSetOnDataReadyCallback, onCalcComplete, initImage]
  · rw [h1.2.2]
    simp [initVideo, callbackList]
  · rw [setOnDataReadyCallback]
    dsimp only
    rw [if_pos h2.2.1, h2.2.2]
    simp [initVideo, callbackList]

/-- Witness for `c8_ready_callback_invoked_exactly_once` at a concrete
callback id and a one-frame video job. -/
theorem c8_ready_callback_invoked_exactly_once_witness :
    (imageSetOnDataReadyCallback initImage 7).invocations = [] ∧
    (onCalcComplete (imageSetOnDataReadyCallback initImage 7) none none).invocations = [7] ∧
    (onCalcComplete initImage none none).invocations = [] ∧
    (imageSetOnDataReadyCallback (onCalcComplete initImage none none) 7).invocations = [7] ∧
    (processAll (initVideo [(⟨mkRat 0 1, none, none⟩ : FrameMsg)].length (some 7))
      [(⟨mkRat 0 1, none, none⟩ : FrameMsg)]).invocations = [7] ∧
    (setOnDataReadyCallback
      (processAll (initVideo [(⟨mkRat 0 1, none, none⟩ : FrameMsg)].length none)
        [(⟨mkRat 0 1, none, none⟩ : FrameMsg)]) 7).invocations = [7] :=
  c8_ready_callback_invoked_exactly_once 7 none none [⟨mkRat 0 1, none, none⟩] (by decide)

end C8

section Playback

/-- ℚ subtraction spelled through `Rat.divInt` so that it reduces under
`decide`; equal to `a - b` (see `ratSub_eq`). -/
def ratSub (a b : ℚ) : ℚ :=
  Rat.divInt (a.num * (b.den : Int) - b.num * (a.den : Int)) ((a.den : Int) * (b.den : Int))

/-- ℚ division spelled through `Rat.divInt` so that it reduces under
`decide`; equal to `a / b` (see `ratDiv_eq`). -/
def ratDiv (a b : ℚ) : ℚ :=
  Rat.divInt (a.num * (b.den : Int)) ((a.den : Int) * b.num)

/-- `ratSub` is subtraction. -/
lemma ratSub_eq (a b : ℚ) : ratSub a b = a - b := by
  rw [ratSub, Rat.divInt_eq_div]
  have ha : ((a.den : Int) : ℚ) ≠ 0 := by
    exact_mod_cast (Nat.cast_ne_zero (R := ℚ)).mpr a.den_nz
  have hb : ((b.den : Int) : ℚ) ≠ 0 := by
    exact_mod_cast (Nat.cast_ne_zero (R := ℚ)).mpr b.den_nz
  conv_rhs => rw [← Rat.num_div_den a, ← Rat.num_div_den b]
  push_cast
  field_simp
  ring

/-- `ratDiv` is division. -/
lemma ratDiv_eq (a b : ℚ) : ratDiv a b = a / b := by
  rcases eq_or_ne b 0 with rfl | hb
  · simp [ratDiv, Rat.divInt_eq_div]
  · rw [ratDiv, Rat.divInt_eq_div]
    have ha : ((a.den : Int) : ℚ) ≠ 0 := by
      exact_mod_cast (Nat.cast_ne_zero (R := ℚ)).mpr a.den_nz
    have hbn : ((b.num : Int) : ℚ) ≠ 0 := by
      exact_mod_cast Rat.num_ne_zero.mpr hb
    have hbd : ((b.den : Int) : ℚ) ≠ 0 := by
      exact_mod_cast (Nat.cast_ne_zero (R := ℚ)).mpr b.den_nz
    conv_rhs => rw [← Rat.num_div_den a, ← Rat.num_div_den b]
    push_cast
    field_simp

/-- The host engine's timer table: `live` holds the cancellable handles
of scheduled-but-not-yet-fired-or-cancelled timers (`bascenev1.timer`
returns a fresh handle), and `delayLog` records every delay passed to
`tick`, in scheduling order. -/
structure Engine where
  live : List Nat
  nextId : Nat
  delayLog : List ℚ

/-- `Screen`'s video-playback state. Pixel node colors are the `pixels`
list; the loaded video's frame dict is `videoData` plus its sorted
timestamp list. -/
structure ScreenState where
  pixels : List (Option Triple)
  videoData : ℚ → Option FrameBuffer
  videoTimestamps : List ℚ
  currentVideoFrameIndex : Nat
  videoPlaybackSpeed : ℚ
  videoLoop : Bool
  videoPlayTimer : Option Nat

/-- `bascenev1.timer(delay, callback)`: schedules one timer and returns
its handle. -/
def tickSchedule (eng : Engine) (d : ℚ) : Engine × Nat :=
  ({ live := eng.live ++ [eng.nextId], nextId := eng.nextId + 1
     delayLog := eng.delayLog ++ [d] }, eng.nextId)

/-- `timer.cancel()`: a live timer is removed; cancelling an already
fired or cancelled handle is a no-op. -/
def cancelTimer (eng : Engine) (h : Nat) : Engine :=
  { eng with live := eng.live.erase h }

/-- `Screen._stop_video_playback`: cancels and clears
`video_play_timer` when set; idempotent. -/
def stopVideoPlayback (eng : Engine) (scr : ScreenState) : Engine × ScreenState :=
  match scr.videoPlayTimer with
  | some h => (cancelTimer eng h, { scr with videoPlayTimer := none })
  | none => (eng, scr)

/-- The `for i, color in enumerate(frame_data): s.pixels[i].set(color)`
loop. -/
def setPixelColors (pixels : List (Option Triple)) (fd : FrameBuffer) :
    List (Option Triple) :=
  (List.range fd.length).foldl (fun px i => px.set i (fd.getD i none)) pixels

/-- The inter-frame delay computation of `_play_next_video_frame`:
`delay = next_ts - ts`, floored to 0 when negative, divided by the
playback speed, floored to 0 again. -/
def schedDelay (nextTs ts sp : ℚ) : ℚ :=
  let delay := ratSub nextTs ts
  let delay2 := if delay < 0 then 0 else delay
  let actualDelay := ratDiv delay2 sp
  if actualDelay < 0 then 0 else actualDelay

/-- `Screen._play_next_video_frame` (activity context modelled as
valid). The fuel bounds the `loop` tail-recursion through
`_start_video_playback`, whose body is inlined in the loop branch;
running out of fuel (`none`) models the unbounded recursion a
single-frame looping video would hit in Python. -/
def playNextVideoFrame : Nat → Engine → ScreenState → Option (Engine × ScreenState)
  | 0, _, _ => none
  | fuel + 1, eng, scr =>
    if scr.videoTimestamps.isEmpty || scr.pixels.isEmpty then
      some (stopVideoPlayback eng scr)
    else if scr.currentVideoFrameIndex < scr.videoTimestamps.length then
      match scr.videoData (scr.videoTimestamps.getD scr.currentVideoFrameIndex 0) with
      | some fd =>
        if fd.isEmpty = false ∧ fd.length = scr.pixels.length then
          let scr1 := { scr with
            pixels := setPixelColors scr.pixels fd
            currentVideoFrameIndex := scr.currentVideoFrameIndex + 1 }
          if scr1.currentVideoFrameIndex < scr.videoTimestamps.length then
            let ts := scr.videoTimestamps.getD scr.currentVideoFrameIndex 0
            let nextTs := scr.videoTimestamps.getD scr1.currentVideoFrameIndex 0
            let pr := tickSchedule eng (schedDelay nextTs ts scr.videoPlaybackSpeed)
            some (pr.1, { scr1 with videoPlayTimer := some pr.2 })
          else
            if scr.videoLoop then
              let pr := stopVideoPlayback eng { scr1 with currentVideoFrameIndex := 0 }
              if pr.2.videoTimestamps.isEmpty = false ∧ pr.2.pixels.isEmpty = false then
                playNextVideoFrame fuel pr.1 pr.2
              else some pr
            else some (stopVideoPlayback eng scr1)
        else some (stopVideoPlayback eng scr)
      | none => some (stopVideoPlayback eng scr)
    else some (stopVideoPlayback eng scr)

/-- `Screen._start_video_playback`: stop any previous timer, then play
frame `current_video_frame_index` if there are timestamps and pixels. -/
def startVideoPlayback (fuel : Nat) (eng : Engine) (scr : ScreenState) :
    Option (Engine × ScreenState) :=
  let pr := stopVideoPlayback eng scr
  if pr.2.videoTimestamps.isEmpty = false ∧ pr.2.pixels.isEmpty = false then
    playNextVideoFrame fuel pr.1 pr.2
  else some pr

/-- The host firing a live timer carrying `_play_next_video_frame`: the
handle leaves the live set, then the tick handler runs. -/
def fireVideoTimer (fuel : Nat) (eng : Engine) (scr : ScreenState) (h : Nat) :
    Option (Engine × ScreenState) :=
  if h ∈ eng.live then
    playNextVideoFrame fuel { eng with live := eng.live.erase h } scr
  else none

/-- The `Image` branch of `Screen._load_data_to_pixels`: applies the
buffer when its length matches the grid, otherwise reports an error
(`some 1` for `data is None`, `some 2` for the size mismatch) and leaves
every pixel untouched. -/
def loadImageDataToPixels (pixels : List (Option Triple)) (data : Option FrameBuffer) :
    List (Option Triple) × Option Nat :=
  match data with
  | some fd =>
    if fd.isEmpty = false ∧ fd.length = pixels.length then (setPixelColors pixels fd, none)
    else (pixels, some 2)
  | none => (pixels, some 1)

/-- `Screen.load` for an already-complete `Video` followed by the
`Video` branch of `_load_data_to_pixels`: clears the old video state,
stops playback, clamps the speed to at least 0.01, stores the frame
dict, and when it is nonempty sorts the timestamps and starts playback
from index 0. -/
def loadVideoIntoScreen (fuel : Nat) (eng : Engine) (scr : ScreenState)
    (data : ℚ → Option FrameBuffer) (keys : List ℚ) (speed : ℚ) (loop : Bool) :
    Option (Engine × ScreenState) :=
  let scr0 := { scr with videoData := fun _ => none, videoTimestamps := [] }
  let pr := stopVideoPlayback eng scr0
  let scr1 := { pr.2 with
    videoPlaybackSpeed := max (mkRat 1 100) speed
    videoLoop := loop }
  if keys.isEmpty = false then
    startVideoPlayback fuel pr.1 { scr1 with
      videoData := data
      videoTimestamps := keys.insertionSort (· ≤ ·)
      currentVideoFrameIndex := 0 }
  else some (pr.1, { scr1 with videoData := data })

end Playback

section PlaybackLemmas

/-- The at-most-one-outstanding-timer invariant between operations: any
live engine timer is the screen's current handle (so there is at most
one), and any stored handle was really issued by the engine. -/
def TimerInv (eng : Engine) (scr : ScreenState) : Prop :=
  (∀ id, scr.videoPlayTimer = some id → id < eng.nextId) ∧
  (eng.live = [] ∨ ∃ id, eng.live = [id] ∧ scr.videoPlayTimer = some id)

/-- Under the invariant, `_stop_video_playback` always leaves zero live
timers and no stored handle, and touches nothing else. -/
lemma stopVideoPlayback_spec (eng : Engine) (scr : ScreenState) (h : TimerInv eng scr) :
    stopVideoPlayback eng scr
      = ({ eng with live := [] }, { scr with videoPlayTimer := none }) := by
  obtain ⟨-, hl⟩ := h
  obtain ⟨px, vd, vt, ci, sp, lp, tm⟩ := scr
  rcases tm with _ | tid
  · rcases hl with hl | ⟨id, -, hl2⟩
    · rw [stopVideoPlayback]
      dsimp only
      rw [← hl]
    · simp at hl2
  · rcases hl with hl | ⟨id, hl1, hl2⟩
    · rw [stopVideoPlayback]
      dsimp only
      rw [cancelTimer, hl]
      rfl
    · have hid : id = tid := by
        simpa using hl2.symm
      subst hid
      rw [stopVideoPlayback]
      dsimp only
      rw [cancelTimer, hl1, List.erase_cons_head]

/-- After the engine fires or cancels the screen's only timer, every
playback entry point keeps the invariant: the result of
`_play_next_video_frame` has at most one live timer and satisfies the
invariant again. -/
lemma playNextVideoFrame_inv (fuel : Nat) :
    ∀ (eng : Engine) (scr : ScreenState) (res : Engine × ScreenState),
      eng.live = [] →
      playNextVideoFrame fuel eng scr = some res →
      TimerInv res.1 res.2 ∧ res.1.live.length ≤ 1 := by
  induction fuel with
  | zero => intro eng scr res _ h; simp [playNextVideoFrame] at h
  | succ fuel ih =>
    intro eng scr res hlive h
    have hstop : ∀ s : ScreenState,
        TimerInv (stopVideoPlayback eng s).1 (stopVideoPlayback eng s).2 ∧
        (stopVideoPlayback eng s).1.live.length ≤ 1 := by
      intro s
      obtain ⟨px, vd, vt, ci, sp, lp, tm⟩ := s
      rcases tm with _ | tid <;>
        simp [stopVideoPlayback, cancelTimer, TimerInv, hlive]
    have hstopfst : ∀ s : ScreenState, (stopVideoPlayback eng s).1.live = [] ∧
        (stopVideoPlayback eng s).2.videoPlayTimer = none := by
      intro s
      obtain ⟨px, vd, vt, ci, sp, lp, tm⟩ := s
      rcases tm with _ | tid <;> simp [stopVideoPlayback, cancelTimer, hlive]
    rw [playNextVideoFrame] at h
    split at h
    · injection h with h2
      subst h2
      exact hstop scr
    · split at h
      · split at h
        · split at h
          · dsimp only at h
            split at h
            · injection h with h2
              subst h2
              constructor
              · constructor
                · intro id hid
                  simp only [tickSchedule] at hid
                  have hide : id = eng.nextId := by simpa using hid.symm
                  simp [tickSchedule, hide]
                · exact Or.inr ⟨eng.nextId, by simp [tickSchedule, hlive],
                    by simp [tickSchedule]⟩
              · simp [tickSchedule, hlive]
            · split at h
              · split at h
                · exact ih _ _ res ((hstopfst _).1) h
                · injection h with h2
                  subst h2
                  exact hstop _
              · injection h with h2
                subst h2
                exact hstop _
          · injection h with h2
            subst h2
            exact hstop scr
        · injection h with h2
          subst h2
          exact hstop scr
      · injection h with h2
        subst h2
        exact hstop scr

/-- `_start_video_playback` preserves the invariant and never leaves
more than one live timer. -/
lemma startVideoPlayback_inv (fuel : Nat) (eng : Engine) (scr : ScreenState)
    (res : Engine × ScreenState) (hinv : TimerInv eng scr)
    (h : startVideoPlayback fuel eng scr = some res) :
    TimerInv res.1 res.2 ∧ res.1.live.length ≤ 1 := by
  rw [startVideoPlayback, stopVideoPlayback_spec eng scr hinv] at h
  dsimp only at h
  split at h
  · exact playNextVideoFrame_inv fuel _ _ res rfl h
  · injection h with h2
    subst h2
    refine ⟨⟨?_, Or.inl rfl⟩, by simp⟩
    intro id hid
    simp at hid

/-- A timer firing preserves the invariant and never leaves more than
one live timer. -/
lemma fireVideoTimer_inv (fuel : Nat) (eng : Engine) (scr : ScreenState) (tid : Nat)
    (res : Engine × ScreenState) (hinv : TimerInv eng scr)
    (h : fireVideoTimer fuel eng scr tid = some res) :
    TimerInv res.1 res.2 ∧ res.1.live.length ≤ 1 := by
  rw [fireVideoTimer] at h
  split at h
  · rename_i hmem
    rcases hinv.2 with hl | ⟨id, hl1, hl2⟩
    · rw [hl] at hmem
      simp at hmem
    · have hid : tid = id := by
        rw [hl1] at hmem
        simpa using hmem
      subst hid
      refine playNextVideoFrame_inv fuel _ _ res ?_ h
      rw [hl1]
      simp
  · simp at h

/-- `Screen.load` of a complete video preserves the invariant and never
leaves more than one live timer. -/
lemma loadVideoIntoScreen_inv (fuel : Nat) (eng : Engine) (scr : ScreenState)
    (data : ℚ → Option FrameBuffer) (keys : List ℚ) (speed : ℚ) (loop : Bool)
    (res : Engine × ScreenState) (hinv : TimerInv eng scr)
    (h : loadVideoIntoScreen fuel eng scr data keys speed loop = some res) :
    TimerInv res.1 res.2 ∧ res.1.live.length ≤ 1 := by
  have hinv0 : TimerInv eng
      { scr with videoData := fun _ => none, videoTimestamps := [] } :=
    ⟨hinv.1, by
      rcases hinv.2 with hl | ⟨id, hl1, hl2⟩
      · exact Or.inl hl
      · exact Or.inr ⟨id, hl1, hl2⟩⟩
  rw [loadVideoIntoScreen] at h
  dsimp only at h
  rw [stopVideoPlayback_spec eng _ hinv0] at h
  dsimp only at h
  split at h
  · refine startVideoPlayback_inv fuel _ _ res ⟨?_, Or.inl rfl⟩ h
    intro id hid
    simp at hid
  · injection h with h2
    subst h2
    refine ⟨⟨?_, Or.inl rfl⟩, by simp⟩
    intro id hid
    simp at hid

/-- A playback tick with a further frame remaining and valid frame data:
it renders the frame, advances the index, and schedules exactly one new
timer whose delay is `schedDelay next ts speed`. -/
lemma playNextVideoFrame_tick (fuel : Nat) (eng : Engine) (scr : ScreenState)
    (fd : FrameBuffer)
    (hidx : scr.currentVideoFrameIndex + 1 < scr.videoTimestamps.length)
    (hpx : scr.pixels.isEmpty = false)
    (hfd : scr.videoData (scr.videoTimestamps.getD scr.currentVideoFrameIndex 0) = some fd)
    (hfdne : fd.isEmpty = false)
    (hfdlen : fd.length = scr.pixels.length) :
    playNextVideoFrame (fuel + 1) eng scr = some
      ({ live := eng.live ++ [eng.nextId], nextId := eng.nextId + 1
         delayLog := eng.delayLog ++ [schedDelay
           (scr.videoTimestamps.getD (scr.currentVideoFrameIndex + 1) 0)
           (scr.videoTimestamps.getD scr.currentVideoFrameIndex 0)
           scr.videoPlaybackSpeed] },
       { scr with
         pixels := setPixelColors scr.pixels fd
         currentVideoFrameIndex := scr.currentVideoFrameIndex + 1
         videoPlayTimer := some eng.nextId }) := by
  have hts : scr.videoTimestamps.isEmpty = false :=
    isEmpty_false_of_ne_nil (by
      intro h0
      rw [h0] at hidx
      simp at hidx)
  rw [playNextVideoFrame]
  rw [if_neg (by rw [hts, hpx]; simp)]
  rw [if_pos (show scr.currentVideoFrameIndex < scr.videoTimestamps.length by omega)]
  rw [hfd]
  dsimp only
  rw [if_pos ⟨hfdne, hfdlen⟩]
  rw [if_pos hidx]
  rfl

/-- `max(0.01, speed)` is positive. -/
lemma clampedSpeed_pos (sp : ℚ) : 0 < max (mkRat 1 100) sp :=
  lt_of_lt_of_le (by rw [Rat.mkRat_eq_div]; norm_num) (le_max_left _ _)

/-- With the speed already clamped, the scheduled delay is exactly the
specified `max(0, next - ts) / max(0.01, speed)`. -/
lemma schedDelay_clamped (nextTs ts sp : ℚ) :
    schedDelay nextTs ts (max (mkRat 1 100) sp)
      = max 0 (nextTs - ts) / max (mkRat 1 100) sp := by
  rw [schedDelay]
  rw [ratSub_eq, ratDiv_eq]
  have h2 : (if nextTs - ts < 0 then (0 : ℚ) else nextTs - ts) = max 0 (nextTs - ts) := by
    rcases le_or_lt 0 (nextTs - ts) with hc | hc
    · rw [if_neg (not_lt.mpr hc), max_eq_right hc]
    · rw [if_pos hc, max_eq_left hc.le]
  rw [h2]
  have h3 : 0 ≤ max 0 (nextTs - ts) / max (mkRat 1 100) sp :=
    div_nonneg (le_max_left _ _) (clampedSpeed_pos sp).le
  rw [if_neg (not_lt.mpr h3)]

/-- Starting playback over a video with a valid first frame and at least
two timestamps renders frame 0 immediately and leaves exactly one live
timer. -/
lemma startVideoPlayback_schedules (fuel : Nat) (eng : Engine) (scr : ScreenState)
    (fd : FrameBuffer)
    (hinv : TimerInv eng scr)
    (hidx : scr.currentVideoFrameIndex = 0)
    (hlen2 : 2 ≤ scr.videoTimestamps.length)
    (hpx : scr.pixels.isEmpty = false)
    (hfd : scr.videoData (scr.videoTimestamps.getD 0 0) = some fd)
    (hfdne : fd.isEmpty = false)
    (hfdlen : fd.length = scr.pixels.length) :
    ∃ res, startVideoPlayback (fuel + 1) eng scr = some res ∧ res.1.live = [eng.nextId] := by
  have hts : scr.videoTimestamps.isEmpty = false :=
    isEmpty_false_of_ne_nil (by
      intro h0
      rw [h0] at hlen2
      simp at hlen2)
  rw [startVideoPlayback, stopVideoPlayback_spec eng scr hinv]
  dsimp only
  rw [if_pos ⟨hts, hpx⟩]
  have htick := playNextVideoFrame_tick fuel ({ eng with live := [] })
    ({ scr with videoPlayTimer := none }) fd
    (by dsimp only; omega) (by dsimp only; exact hpx)
    (by dsimp only; rw [hidx]; exact hfd) hfdne (by dsimp only; exact hfdlen)
  rw [htick]
  exact ⟨_, rfl, by dsimp only; simp⟩

end PlaybackLemmas

section C4

/-- A one-pixel test framebuffer. -/
def c4Fb : FrameBuffer := [some (mkRat 0 1, mkRat 0 1, mkRat 0 1)]

/-- An engine with exactly one live timer, handle 0. -/
def c4Eng : Engine := ⟨[0], 1, []⟩

/-- An active session over a one-frame non-looping video, holding
timer 0. -/
def c4Scr : ScreenState :=
  ⟨[some (mkRat 0 1, mkRat 0 1, mkRat 0 1)],
   fun t => if t = mkRat 0 1 then some c4Fb else none,
   [mkRat 0 1], 0, mkRat 1 1, false, some 0⟩

/-- C4 counterexample: starting playback while a session is active does
NOT always leave exactly one outstanding timer — for a one-frame
non-looping video, frame 0 is rendered, playback completes immediately,
and zero timers are outstanding after the call. -/
theorem c4_single_frame_start_leaves_no_timer :
    c4Eng.live.length = 1 ∧
    (startVideoPlayback 5 c4Eng c4Scr).map (fun p => (p.1.live, p.2.videoPlayTimer))
      = some ([], none) :=
  ⟨rfl, by decide⟩

/-- C4 (amended): the playback scheduler maintains at most one
outstanding timer — starting a session, a timer firing, `stop`, and
loading new media each cancel any prior timer before scheduling anew,
so each leaves at most one live timer (stop leaves zero); after start
while a session is active exactly one timer is outstanding provided the
started video still has a frame to schedule (at least two timestamps
and a valid size-matching frame 0), and zero otherwise (see the
counterexample). -/
theorem c4_at_most_one_timer (fuel1 fuel2 fuel3 : Nat) (eng : Engine) (scr : ScreenState)
    (tid : Nat) (data : ℚ → Option FrameBuffer) (keys : List ℚ) (speed : ℚ) (loop : Bool)
    (prS prF prL : Engine × ScreenState) (fd : FrameBuffer)
    (hinv : TimerInv eng scr)
    (hstart : startVideoPlayback (fuel1 + 1) eng scr = some prS)
    (hfire : fireVideoTimer fuel2 eng scr tid = some prF)
    (hload : loadVideoIntoScreen fuel3 eng scr data keys speed loop = some prL)
    (_hactive : scr.videoPlayTimer.isSome = true)
    (hidx : scr.currentVideoFrameIndex = 0)
    (hlen2 : 2 ≤ scr.videoTimestamps.length)
    (hpx : scr.pixels.isEmpty = false)
    (hfd : scr.videoData (scr.videoTimestamps.getD 0 0) = some fd)
    (hfdne : fd.isEmpty = false)
    (hfdlen : fd.length = scr.pixels.length) :
    (TimerInv prS.1 prS.2 ∧ prS.1.live.length ≤ 1) ∧
    (TimerInv prF.1 prF.2 ∧ prF.1.live.length ≤ 1) ∧
    (TimerInv (stopVideoPlayback eng scr).1 (stopVideoPlayback eng scr).2 ∧
      (stopVideoPlayback eng scr).1.live = []) ∧
    (TimerInv prL.1 prL.2 ∧ prL.1.live.length ≤ 1) ∧
    prS.1.live = [eng.nextId] := by
  obtain ⟨res, hres, hres1⟩ := startVideoPlayback_schedules fuel1 eng scr fd hinv hidx
    hlen2 hpx hfd hfdne hfdlen
  rw [hstart] at hres
  injection hres with hres2
  refine ⟨startVideoPlayback_inv _ _ _ _ hinv hstart,
    fireVideoTimer_inv _ _ _ _ _ hinv hfire, ?_,
    loadVideoIntoScreen_inv _ _ _ _ _ _ _ _ hinv hload,
    by rw [hres2]; exact hres1⟩
  rw [stopVideoPlayback_spec eng scr hinv]
  refine ⟨⟨?_, Or.inl rfl⟩, rfl⟩
  intro id hid
  simp at hid

/-- Frame dict of the two-frame witness video. -/
def c4wData : ℚ → Option FrameBuffer :=
  fun t => if t = mkRat 0 1 ∨ t = mkRat 1 25 then some c4Fb else none

/-- An active session over a two-frame video, holding timer 0. -/
def c4wScr : ScreenState :=
  ⟨[some (mkRat 0 1, mkRat 0 1, mkRat 0 1)], c4wData,
   [mkRat 0 1, mkRat 1 25], 0, mkRat 1 1, false, some 0⟩

/-- Result of starting playback on the witness state. -/
def c4wPrS : Engine × ScreenState :=
  (startVideoPlayback 5 c4Eng c4wScr).getD (⟨[], 0, []⟩, c4wScr)

/-- Result of firing timer 0 on the witness state. -/
def c4wPrF : Engine × ScreenState :=
  (fireVideoTimer 4 c4Eng c4wScr 0).getD (⟨[], 0, []⟩, c4wScr)

/-- Result of loading the witness video anew on the witness state. -/
def c4wPrL : Engine × ScreenState :=
  (loadVideoIntoScreen 4 c4Eng c4wScr c4wData [mkRat 0 1, mkRat 1 25] (mkRat 1 1)
    false).getD (⟨[], 0, []⟩, c4wScr)

/-- Witness for `c4_at_most_one_timer` on a two-frame active session. -/
theorem c4_at_most_one_timer_witness :
    (TimerInv c4wPrS.1 c4wPrS.2 ∧ c4wPrS.1.live.length ≤ 1) ∧
    (TimerInv c4wPrF.1 c4wPrF.2 ∧ c4wPrF.1.live.length ≤ 1) ∧
    (TimerInv (stopVideoPlayback c4Eng c4wScr).1 (stopVideoPlayback c4Eng c4wScr).2 ∧
      (stopVideoPlayback c4Eng c4wScr).1.live = []) ∧
    (TimerInv c4wPrL.1 c4wPrL.2 ∧ c4wPrL.1.live.length ≤ 1) ∧
    c4wPrS.1.live = [c4Eng.nextId] :=
  c4_at_most_one_timer 4 4 4 c4Eng c4wScr 0 c4wData [mkRat 0 1, mkRat 1 25] (mkRat 1 1)
    false c4wPrS c4wPrF c4wPrL c4Fb
    (by
      constructor
      · intro id hid
        have h0 : id = 0 := by simpa [c4wScr] using hid.symm
        subst h0
        decide
      · exact Or.inr ⟨0, rfl, rfl⟩)
    rfl rfl rfl rfl rfl (by decide) rfl (by decide) rfl rfl

end C4

section C5

/-- Fresh engine for the worked example. -/
def c5Eng : Engine := ⟨[], 0, []⟩

/-- The worked example's frame dict: frames at 0.0, 0.04 and 0.12
seconds, each a one-pixel buffer. -/
def c5Data : ℚ → Option FrameBuffer :=
  fun t => if t = mkRat 0 1 ∨ t = mkRat 1 25 ∨ t = mkRat 3 25 then some c4Fb else none

/-- The worked example's timestamps 0.0, 0.04, 0.12. -/
def c5Keys : List ℚ := [mkRat 0 1, mkRat 1 25, mkRat 3 25]

/-- A one-pixel screen with nothing loaded. -/
def c5Scr : ScreenState :=
  ⟨[some (mkRat 0 1, mkRat 0 1, mkRat 0 1)], fun _ => none, [], 0, mkRat 1 1, false, none⟩

/-- The host firing the screen's currently outstanding timer. -/
def c5Fire (p : Engine × ScreenState) : Option (Engine × ScreenState) :=
  match p.2.videoPlayTimer with
  | some h => fireVideoTimer 9 p.1 p.2 h
  | none => none

/-- C5: on a tick with a further frame remaining, the scheduled delay is
exactly `max(0, next_ts - ts) / max(0.01, speed)` — the difference is
floored at 0, the speed pre-clamped to at least 0.01; and the worked
example (timestamps 0.0/0.04/0.12, speed 1.0, no loop) renders frame 0
immediately on load, then schedules delays 0.04 s and 0.08 s, then
stops with no outstanding timer. -/
theorem c5_tick_delay_formula (fuel : Nat) (eng : Engine) (scr : ScreenState)
    (fd : FrameBuffer) (sp : ℚ)
    (hspeed : scr.videoPlaybackSpeed = max (mkRat 1 100) sp)
    (hidx : scr.currentVideoFrameIndex + 1 < scr.videoTimestamps.length)
    (hpx : scr.pixels.isEmpty = false)
    (hfd : scr.videoData (scr.videoTimestamps.getD scr.currentVideoFrameIndex 0) = some fd)
    (hfdne : fd.isEmpty = false)
    (hfdlen : fd.length = scr.pixels.length) :
    (playNextVideoFrame (fuel + 1) eng scr).map (fun p => p.1.delayLog)
      = some (eng.delayLog ++
        [max 0 (scr.videoTimestamps.getD (scr.currentVideoFrameIndex + 1) 0
            - scr.videoTimestamps.getD scr.currentVideoFrameIndex 0)
          / max (mkRat 1 100) sp]) ∧
    (((loadVideoIntoScreen 9 c5Eng c5Scr c5Data c5Keys (mkRat 1 1) false).bind
        c5Fire).bind c5Fire).map (fun p => (p.1.delayLog, p.1.live, p.2.videoPlayTimer))
      = some ([mkRat 1 25, mkRat 2 25], [], none) := by
  constructor
  · rw [playNextVideoFrame_tick fuel eng scr fd hidx hpx hfd hfdne hfdlen]
    rw [Option.map_some']
    rw [hspeed, schedDelay_clamped]
  · decide

/-- Witness screen for the general tick of `c5_tick_delay_formula`:
index 0 of the worked example, speed clamped from 1.0. -/
def c5wScr : ScreenState :=
  ⟨[some (mkRat 0 1, mkRat 0 1, mkRat 0 1)], c5Data, c5Keys, 0,
   max (mkRat 1 100) (mkRat 1 1), false, none⟩

/-- Witness for `c5_tick_delay_formula` at the worked example's first
tick. -/
theorem c5_tick_delay_formula_witness :
    (playNextVideoFrame (3 + 1) c5Eng c5wScr).map (fun p => p.1.delayLog)
      = some (c5Eng.delayLog ++
        [max 0 (c5wScr.videoTimestamps.getD (c5wScr.currentVideoFrameIndex + 1) 0
            - c5wScr.videoTimestamps.getD c5wScr.currentVideoFrameIndex 0)
          / max (mkRat 1 100) (mkRat 1 1)]) ∧
    (((loadVideoIntoScreen 9 c5Eng c5Scr c5Data c5Keys (mkRat 1 1) false).bind
        c5Fire).bind c5Fire).map (fun p => (p.1.delayLog, p.1.live, p.2.videoPlayTimer))
      = some ([mkRat 1 25, mkRat 2 25], [], none) :=
  c5_tick_delay_formula 3 c5Eng c5wScr c4Fb (mkRat 1 1) rfl (by decide) rfl (by decide)
    rfl rfl

end C5

section C9

/-- C9: applying a frame buffer whose length differs from the pixel grid
reports the size mismatch and leaves every pixel's prior color untouched
— on the image path the grid and an error are returned unchanged, and on
the video path the tick aborts playback (timer cleared) without touching
any pixel. -/
theorem c9_size_mismatch_leaves_pixels (pixels : List (Option Triple)) (fd1 : FrameBuffer)
    (fuel : Nat) (eng : Engine) (scr : ScreenState) (fd2 : FrameBuffer)
    (hmm1 : fd1.length ≠ pixels.length)
    (hts : scr.videoTimestamps.isEmpty = false)
    (hpx : scr.pixels.isEmpty = false)
    (hidx : scr.currentVideoFrameIndex < scr.videoTimestamps.length)
    (hfd : scr.videoData (scr.videoTimestamps.getD scr.currentVideoFrameIndex 0) = some fd2)
    (hmm2 : fd2.length ≠ scr.pixels.length) :
    loadImageDataToPixels pixels (some fd1) = (pixels, some 2) ∧
    (playNextVideoFrame (fuel + 1) eng scr).map (fun p => (p.2.pixels, p.2.videoPlayTimer))
      = some (scr.pixels, none) := by
  constructor
  · simp only [loadImageDataToPixels]
    rw [if_neg (by rintro ⟨-, hlen⟩; exact hmm1 hlen)]
  · rw [playNextVideoFrame]
    rw [if_neg (by rw [hts, hpx]; simp)]
    rw [if_pos hidx, hfd]
    dsimp only
    rw [if_neg (by rintro ⟨-, hlen⟩; exact hmm2 hlen)]
    obtain ⟨px, vd, vt, ci, sp, lp, tm⟩ := scr
    rcases tm with _ | tid <;> simp [stopVideoPlayback, cancelTimer]

/-- A 50-pixel grid, all black. -/
def c9Pixels : List (Option Triple) :=
  List.replicate 50 (some (mkRat 0 1, mkRat 0 1, mkRat 0 1))

/-- A 49-element frame buffer. -/
def c9Fd : FrameBuffer := List.replicate 49 (some (mkRat 1 1, mkRat 1 1, mkRat 1 1))

/-- A session whose only frame has 49 samples against the 50-pixel
grid. -/
def c9Scr : ScreenState :=
  ⟨c9Pixels, fun t => if t = mkRat 0 1 then some c9Fd else none,
   [mkRat 0 1], 0, mkRat 1 1, false, some 3⟩

/-- Engine for the C9 witness, timer 3 live. -/
def c9Eng : Engine := ⟨[3], 4, []⟩

/-- Witness for `c9_size_mismatch_leaves_pixels`: a 49-element buffer
onto the 50-pixel grid. -/
theorem c9_size_mismatch_leaves_pixels_witness :
    loadImageDataToPixels c9Pixels (some c9Fd) = (c9Pixels, some 2) ∧
    (playNextVideoFrame (2 + 1) c9Eng c9Scr).map (fun p => (p.2.pixels, p.2.videoPlayTimer))
      = some (c9Scr.pixels, none) :=
  c9_size_mismatch_leaves_pixels c9Pixels c9Fd 2 c9Eng c9Scr c9Fd
    (by decide) rfl rfl (by decide) (by decide) (by decide)

end C9

end BSM
